import Mathlib

/-!
# Verification of the ingestion normalizer (`preprocess_and_save`)

Shallow embedding of the file-preprocessing pipeline of
`src/sql_data_analysis_ai_agent.py` (function `preprocess_and_save`,
lines 19-53) together with the pandas primitives it calls, at the level
of detail the specification's claims require:

* `pd.read_csv(file, encoding='utf-8', na_values=['NA','N/A','missing'])`
  is modelled by `readCsv`: a character-level lexer for quoted
  delimited text (`lexCsv`), missing-token normalization over the union
  of pandas' default NA tokens and the three extra tokens passed at the
  call site (`naTokens`, `rawCell`), and per-column dtype inference
  (`mkReadCol`: a column every non-null value of which parses as a
  number becomes numeric, otherwise it is an object column of strings).
* `pd.read_excel(file, na_values=[...])` is modelled by `readXlsx` over
  natively-typed spreadsheet cells (`XCell`).
* the quote-escaping loop (lines 31-32, `astype(str)` followed by the
  regex replacement of `"` by `""`) is `escapeStage`; `astype(str)`
  renders a missing value as the literal string `"nan"` (`cellToStr`).
* the casting loop (lines 35-42) is `castStage`: `pd.to_datetime(...,
  errors='coerce')` is `toDatetimeCell` and the all-or-nothing
  `pd.to_numeric` attempt is the numeric branch of `castCol`.
* `df.to_csv(tmp.name, index=False, quoting=csv.QUOTE_ALL)` is
  `serializeDf`: every field quoted, embedded quotes doubled, one
  record per row plus a header record, each record terminated by a
  newline; the snapshot file's content stands in for the file handle.

Machine-level simplifications, stated once here: numeric values are
carried as their validated literal text (`numOk`) rather than as IEEE
floats, and date values as their validated ISO text (`dateShape`)
rather than as timestamps; `pd.to_datetime` applied to an
already-numeric cell (which pandas maps to an epoch timestamp) is
modelled as missing, and bool-dtype inference of `read_csv` is not
modelled.  No claim under verification depends on the numeric value of
a float, on a broader date grammar, or on those two corners.
-/

namespace SqlAgent

/-- Double every quote character of a character list, as the regex
replacement of a quote by two quotes does on the characters of a
string (`df[col].replace(r'"': '""', regex=True)`). -/
def dq : List Char → List Char
  | [] => []
  | c :: r => if c = '"' then '"' :: '"' :: dq r else c :: dq r

/-- Double every quote character of a string (`"` becomes `""`). -/
def doubleQuotes (s : String) : String := ⟨dq s.data⟩

/-- The missing-value tokens recognized while parsing: pandas' default
NA token list joined with the `na_values=['NA', 'N/A', 'missing']`
passed by `preprocess_and_save` (with `keep_default_na=True`, the
default, the two sets are unioned). -/
def naTokens : List String :=
  ["", "#N/A", "#N/A N/A", "#NA", "-1.#IND", "-1.#QNAN", "-NaN", "-nan",
   "1.#IND", "1.#QNAN", "<NA>", "N/A", "NA", "NULL", "NaN", "None",
   "n/a", "nan", "null", "missing"]

/-- A raw field is a missing value iff its literal text is an NA token. -/
def isNa (s : String) : Bool := naTokens.contains s

/-- Parsing-time normalization of one raw field: NA tokens become the
null marker (`none`), anything else is kept as text. -/
def rawCell (s : String) : Option String := if isNa s then none else some s

/-- All characters are decimal digits. -/
def allDigits (l : List Char) : Bool := l.all Char.isDigit

/-- An optional sign followed by at least one digit (the exponent body
of a numeric literal). -/
def signDigits (l : List Char) : Bool :=
  match l with
  | [] => false
  | c :: r => if c = '+' || c = '-' then !r.isEmpty && allDigits r else allDigits (c :: r)

/-- Empty, or an exponent marker `e`/`E` followed by a signed digit
string. -/
def expOk (l : List Char) : Bool :=
  match l with
  | [] => true
  | c :: r => (c = 'e' || c = 'E') && signDigits r

/-- The unsigned body of a numeric literal: digits, an optional point
with digits on at least one side, an optional exponent. -/
def numCore (l : List Char) : Bool :=
  let a := l.takeWhile Char.isDigit
  match l.dropWhile Char.isDigit with
  | [] => !a.isEmpty
  | c :: r =>
      if c = '.' then
        (!a.isEmpty || !(r.takeWhile Char.isDigit).isEmpty)
          && expOk (r.dropWhile Char.isDigit)
      else !a.isEmpty && expOk (c :: r)

/-- The decimal-literal grammar accepted by the modelled numeric
parser (shared by `read_csv`'s per-column numeric inference and
`pd.to_numeric`): an optional sign followed by a numeric body. -/
def numOk (l : List Char) : Bool :=
  match l with
  | [] => false
  | c :: r => if c = '+' || c = '-' then numCore r else numCore (c :: r)

/-- One cell value of a typed column: the null marker (`NaN`/`NaT`),
opaque text, a numeric value carried as its literal text, or a
date value carried as its ISO text. -/
inductive Cell where
  | null : Cell
  | str : String → Cell
  | num : String → Cell
  | date : String → Cell
deriving DecidableEq, Repr

/-- `pd.to_numeric` on one string: the text `nan` parses to a missing
numeric value, a decimal literal parses to a number, anything else
fails (`none`). -/
def parseNumCell (s : String) : Option Cell :=
  if s = "nan" then some Cell.null
  else if numOk s.data then some (Cell.num s) else none

/-- Two-digit month between 01 and 12. -/
def monthOk (a b : Char) : Bool :=
  (a = '0' && b ≠ '0' && b.isDigit) || (a = '1' && (b = '0' || b = '1' || b = '2'))

/-- Two-digit day between 01 and 31. -/
def dayOk (a b : Char) : Bool :=
  (a = '0' && b ≠ '0' && b.isDigit)
    || ((a = '1' || a = '2') && b.isDigit)
    || (a = '3' && (b = '0' || b = '1'))

/-- The character-wise conditions of the ISO date shape `YYYY-MM-DD`:
four digits, a dash, an in-range month, a dash, an in-range day. -/
def dateCheck (a b c d s1 e f s2 g h : Char) : Bool :=
  a.isDigit && b.isDigit && c.isDigit && d.isDigit
    && s1 = '-' && s2 = '-'
    && monthOk e f && dayOk g h

/-- The ISO date shape `YYYY-MM-DD` with in-range month and day: the
normalized text form of a date value. -/
def dateShape (l : List Char) : Bool :=
  match l with
  | [a, b, c, d, s1, e, f, s2, g, h] => dateCheck a b c d s1 e f s2 g h
  | _ => false

/-- `pd.to_datetime(..., errors='coerce')` on one string: a value of
the modelled date grammar parses to itself (pandas normalizes parsed
dates to exactly this ISO rendering), anything else coerces to
missing. -/
def parseDate (s : String) : Option String :=
  if dateShape s.data then some s else none

/-- The dtype of a column of the data frame. -/
inductive DType where
  | object : DType
  | numeric : DType
  | datetime : DType
deriving DecidableEq, Repr, Inhabited

/-- A named, dtyped column of cells. -/
structure Column where
  name : String
  dtype : DType
  cells : List Cell
deriving DecidableEq, Repr, Inhabited

/-- A data frame: an ordered list of columns. -/
structure Df where
  cols : List Column
deriving DecidableEq, Repr

/-- Row count of a data frame (the pipeline only builds rectangular
frames; the first column's length is the row count). -/
def Df.nrows (df : Df) : Nat :=
  match df.cols with
  | [] => 0
  | c :: _ => c.cells.length

/-- Number of non-null cells of a column. -/
def Column.nonNull (c : Column) : Nat :=
  c.cells.countP (fun x => x ≠ Cell.null)

/-- Number of non-null cells of a data frame. -/
def Df.nonNull (df : Df) : Nat := (df.cols.map Column.nonNull).sum

/-! ## The delimited-text lexer

Character-level model of the tokenizer behind `pd.read_csv`: records
are separated by newlines, truly empty lines are skipped
(`skip_blank_lines=True`, the default), fields are separated by
commas, a field may be enclosed in quotes, and inside a quoted field a
doubled quote stands for a literal quote (`doublequote=True`, the
default).  Junk after a closing quote is a tokenizer error.  The
recursions over the remaining input are fuelled; every entry point
passes more fuel than the input length, which is always enough. -/

/-- Lex the body of a quoted field (the opening quote has been
consumed): returns the field's characters and the input following the
closing quote, or `none` if the quote is unterminated. -/
def lexQuoted : List Char → Option (List Char × List Char)
  | [] => none
  | c :: r =>
      if c = '"' then
        match r with
        | [] => some ([], [])
        | c2 :: r2 =>
            if c2 = '"' then (lexQuoted r2).map (fun p => ('"' :: p.1, p.2))
            else some ([], c2 :: r2)
      else (lexQuoted r).map (fun p => (c :: p.1, p.2))

/-- Lex one field: quoted if it starts with a quote, otherwise the
run of characters up to the next separator. -/
def lexField (l : List Char) : Option (String × List Char) :=
  match l with
  | [] => some ("", [])
  | c :: r =>
      if c = '"' then (lexQuoted r).map (fun p => (⟨p.1⟩, p.2))
      else
        some (⟨(c :: r).takeWhile (fun x => !(x = ',' || x = '\n'))⟩,
              (c :: r).dropWhile (fun x => !(x = ',' || x = '\n')))

/-- Lex the comma-separated fields of one record, consuming the
record's terminating newline when present. -/
def lexFields (fuel : Nat) (l : List Char) : Option (List String × List Char) :=
  match fuel with
  | 0 => none
  | fuel + 1 =>
      match lexField l with
      | none => none
      | some (s, rest) =>
          match rest with
          | [] => some ([s], [])
          | c :: r =>
              if c = ',' then (lexFields fuel r).map (fun p => (s :: p.1, p.2))
              else if c = '\n' then some ([s], r)
              else none

/-- Lex all records of the input; a record starting directly with a
newline is an empty line and is skipped. -/
def lexRecords (fuel : Nat) (l : List Char) : Option (List (List String)) :=
  match fuel with
  | 0 => none
  | fuel + 1 =>
      match l with
      | [] => some []
      | c :: r =>
          if c = '\n' then lexRecords fuel r
          else
            match lexFields ((c :: r).length + 1) (c :: r) with
            | none => none
            | some (fs, rest) => (lexRecords fuel rest).map (fs :: ·)

/-- Lex a delimited-text file into its records. -/
def lexCsv (s : String) : Option (List (List String)) :=
  lexRecords (s.data.length + 1) s.data

/-! ## Reading a file into a typed frame -/

/-- Is a normalized raw value acceptable to the numeric parser
(nulls are; a kept text exactly when it parses)? -/
def numCheckVal : Option String → Bool
  | none => true
  | some s => (parseNumCell s).isSome

/-- A normalized raw value as a cell of a numeric column. -/
def readNumVal : Option String → Cell
  | none => Cell.null
  | some s => (parseNumCell s).getD Cell.null

/-- A normalized raw value as a cell of an object column. -/
def readStrVal : Option String → Cell
  | none => Cell.null
  | some s => Cell.str s

/-- Build one column from its header name and raw field texts, as
`read_csv` does: NA tokens become null; if every non-null value
parses as a number the column is numeric, otherwise it is an object
column of the raw strings. -/
def mkReadCol (name : String) (raws : List String) : Column :=
  let vals := raws.map rawCell
  if vals.all numCheckVal then
    ⟨name, DType.numeric, vals.map readNumVal⟩
  else
    ⟨name, DType.object, vals.map readStrVal⟩

/-- `pd.read_csv(file, encoding='utf-8', na_values=['NA','N/A','missing'])`:
lex the text, take the first record as the header, require the data
records to be rectangular, and build the typed columns. -/
def readCsv (text : String) : Except String Df :=
  match lexCsv text with
  | none => Except.error "Error tokenizing data"
  | some [] => Except.error "No columns to parse from file"
  | some (hdr :: rows) =>
      if rows.all (fun r => r.length = hdr.length) then
        Except.ok ⟨(List.range hdr.length).map (fun j =>
          mkReadCol (hdr.getD j "") (rows.map (fun r => r.getD j "")))⟩
      else Except.error "Error tokenizing data"

/-- A natively-typed spreadsheet cell, as the xlsx reader sees it:
blank, text, a numeric value (carried as its literal text), or a
date value (carried as its ISO text). -/
inductive XCell where
  | blank : XCell
  | xstr : String → XCell
  | xnum : String → XCell
  | xdate : String → XCell
deriving DecidableEq, Repr

/-- A spreadsheet: a header row of column names and data rows of
natively-typed cells. -/
structure XFile where
  header : List String
  rows : List (List XCell)
deriving DecidableEq, Repr

/-- NA normalization of one spreadsheet cell: blanks are missing, and a
text cell whose literal text is an NA token is missing
(`na_values` is applied by `read_excel` exactly as by `read_csv`). -/
def xRawCell (x : XCell) : Option XCell :=
  match x with
  | XCell.blank => none
  | XCell.xstr s => if isNa s then none else some (XCell.xstr s)
  | x => some x

/-- Build one column from spreadsheet cells: a column of numbers (or
of dates) keeps its native dtype; a mixed or textual column is an
object column of the cells' string renderings. -/
def mkXCol (name : String) (raws : List XCell) : Column :=
  let vals := raws.map xRawCell
  if vals.all (fun v => match v with
      | none => true
      | some (XCell.xnum _) => true
      | some _ => false) then
    ⟨name, DType.numeric, vals.map (fun v => match v with
      | some (XCell.xnum s) => Cell.num s
      | _ => Cell.null)⟩
  else if vals.all (fun v => match v with
      | none => true
      | some (XCell.xdate _) => true
      | some _ => false) then
    ⟨name, DType.datetime, vals.map (fun v => match v with
      | some (XCell.xdate s) => Cell.date s
      | _ => Cell.null)⟩
  else
    ⟨name, DType.object, vals.map (fun v => match v with
      | none => Cell.null
      | some (XCell.xstr s) => Cell.str s
      | some (XCell.xnum s) => Cell.str s
      | some (XCell.xdate s) => Cell.str s
      | some XCell.blank => Cell.null)⟩

/-- `pd.read_excel(file, na_values=['NA','N/A','missing'])`. -/
def readXlsx (x : XFile) : Except String Df :=
  if x.rows.all (fun r => r.length = x.header.length) then
    Except.ok ⟨(List.range x.header.length).map (fun j =>
      mkXCol (x.header.getD j "") (x.rows.map (fun r => r.getD j XCell.blank)))⟩
  else Except.error "Error tokenizing data"

/-! ## The escaping and casting stages -/

/-- `astype(str)` on one cell of an object column: a string stays
itself and a missing value is rendered as the literal text `nan`
(numeric and date entries render as their literal text). -/
def cellToStr (c : Cell) : String :=
  match c with
  | Cell.null => "nan"
  | Cell.str s => s
  | Cell.num v => v
  | Cell.date v => v

/-- One cell under `astype(str)` plus quote doubling. -/
def escCell (x : Cell) : Cell := Cell.str (doubleQuotes (cellToStr x))

/-- Lines 31-32: on an object column, `astype(str)` followed by the
regex replacement doubling quotes; any other column is untouched
(`select_dtypes(include=['object'])`). -/
def escapeCol (c : Column) : Column :=
  if c.dtype = DType.object then
    ⟨c.name, DType.object, c.cells.map escCell⟩
  else c

/-- The quote-escaping loop over all object columns. -/
def escapeStage (df : Df) : Df := ⟨df.cols.map escapeCol⟩

/-- Does the lowercased column name contain the substring `date`
(`'date' in col.lower()`)? -/
def hasDate (name : String) : Bool :=
  let l := name.data.map Char.toLower
  (List.range (l.length + 1)).any (fun i => (l.drop i).take 4 = ['d', 'a', 't', 'e'])

/-- `pd.to_datetime(..., errors='coerce')` on one cell: missing stays
missing, text parses through the date grammar or coerces to missing, a
date stays itself.  A numeric cell is modelled as coercing to missing
(pandas maps it to an epoch timestamp; no claim depends on that
value). -/
def toDatetimeCell (c : Cell) : Cell :=
  match c with
  | Cell.null => Cell.null
  | Cell.str s =>
      match parseDate s with
      | some v => Cell.date v
      | none => Cell.null
  | Cell.num _ => Cell.null
  | Cell.date v => Cell.date v

/-- Does `pd.to_numeric` accept this cell (nulls pass through; text
exactly when it parses)? -/
def numCheckCell : Cell → Bool
  | Cell.str s => (parseNumCell s).isSome
  | _ => true

/-- One cell under a successful `pd.to_numeric` conversion. -/
def toNumericCell : Cell → Cell
  | Cell.str s => (parseNumCell s).getD Cell.null
  | x => x

/-- Lines 35-42 for one column: a column whose name contains `date` is
converted wholesale by `to_datetime`; otherwise an object column is
converted by `to_numeric` only if every cell parses (the raised
`ValueError` is swallowed and the column left unchanged otherwise);
any other column is untouched. -/
def castCol (c : Column) : Column :=
  if hasDate c.name then
    ⟨c.name, DType.datetime, c.cells.map toDatetimeCell⟩
  else if c.dtype = DType.object then
    if c.cells.all numCheckCell then
      ⟨c.name, DType.numeric, c.cells.map toNumericCell⟩
    else c
  else c

/-- The auto-cast loop over all columns. -/
def castStage (df : Df) : Df := ⟨df.cols.map castCol⟩

/-! ## The durable writer -/

/-- One field of the snapshot: quoted, with embedded quotes doubled
(`csv.QUOTE_ALL` with the default `doublequote=True`). -/
def quoteFieldChars (s : String) : List Char := '"' :: dq s.data ++ ['"']

/-- `to_csv`'s rendering of one cell: missing values print as the
empty field (`na_rep=''`, the default), every other cell prints its
text. -/
def serCell (c : Cell) : String :=
  match c with
  | Cell.null => ""
  | Cell.str s => s
  | Cell.num v => v
  | Cell.date v => v

/-- One record of the snapshot: the quoted fields joined by commas and
terminated by a newline. -/
def serRowChars : List String → List Char
  | [] => ['\n']
  | f :: fs =>
      if fs.isEmpty then quoteFieldChars f ++ ['\n']
      else quoteFieldChars f ++ ',' :: serRowChars fs

/-- Row `i` of the frame as field texts, one per column. -/
def Df.rowAt (df : Df) (i : Nat) : List String :=
  df.cols.map (fun c => serCell (c.cells.getD i Cell.null))

/-- `df.to_csv(tmp.name, index=False, quoting=csv.QUOTE_ALL)`: the
header record followed by one record per row. -/
def serializeDf (df : Df) : String :=
  ⟨serRowChars (df.cols.map Column.name) ++
    ((List.range df.nrows).map (fun i => serRowChars (df.rowAt i))).flatten⟩

/-! ## The pipeline -/

/-- The result of `preprocess_and_save`: either the uniform failure
(`None, None, None` accompanied by the `st.error` diagnostic) or the
success triple.  The durable snapshot's content stands in for the
temp-file path the source returns. -/
inductive PResult where
  | fail : String → PResult
  | ok : String → List String → Df → PResult
deriving DecidableEq, Repr

/-- The uploaded file: a name and either delimited-text bytes or a
spreadsheet. -/
inductive FileContent where
  | csv : String → FileContent
  | xlsx : XFile → FileContent
deriving DecidableEq, Repr

/-- A named uploaded file. -/
structure RawFile where
  name : String
  content : FileContent
deriving DecidableEq, Repr

/-- `str.endswith(pat)` (case-sensitive, as in the source). -/
def endsWithStr (s pat : String) : Bool := pat.data.isSuffixOf s.data

/-- The escape, cast and write stages shared by both formats, from a
successfully read frame to the success triple. -/
def finishPipeline (df : Df) : PResult :=
  let df2 := castStage (escapeStage df)
  PResult.ok (serializeDf df2) (df2.cols.map Column.name) df2

/-- `preprocess_and_save` (lines 19-53): dispatch on the filename
suffix, read, escape, cast, write; any stage error is caught and
converted into the uniform failure result. -/
def preprocess_and_save (f : RawFile) : PResult :=
  if endsWithStr f.name ".csv" then
    match f.content with
    | FileContent.csv text =>
        match readCsv text with
        | Except.error e => PResult.fail ("Error processing file: " ++ e)
        | Except.ok df => finishPipeline df
    | FileContent.xlsx _ =>
        PResult.fail "Error processing file: not valid delimited text"
  else if endsWithStr f.name ".xlsx" then
    match f.content with
    | FileContent.xlsx x =>
        match readXlsx x with
        | Except.error e => PResult.fail ("Error processing file: " ++ e)
        | Except.ok df => finishPipeline df
    | FileContent.csv _ =>
        PResult.fail "Error processing file: not a valid spreadsheet"
  else PResult.fail "Unsupported file format. Please upload a CSV or Excel file."

/-! ## Basic lemmas about the escaping and parsing primitives -/

theorem isNa_iff {s : String} : isNa s = true ↔ s ∈ naTokens := by
  simp [isNa, List.contains]

theorem dq_eq_self {l : List Char} (h : '"' ∉ l) : dq l = l := by
  induction l with
  | nil => rfl
  | cons c r ih =>
      simp only [List.mem_cons, not_or] at h
      rw [dq, if_neg (fun hc => h.1 hc.symm), ih h.2]

theorem mem_dq_of_mem {l : List Char} {c : Char} (h : c ∈ l) : c ∈ dq l := by
  induction l with
  | nil => cases h
  | cons a r ih =>
      rw [dq]
      by_cases ha : a = '"'
      · rw [if_pos ha]
        rcases List.mem_cons.1 h with rfl | h2
        · rw [ha]; simp
        · simp [ih h2]
      · rw [if_neg ha]
        rcases List.mem_cons.1 h with rfl | h2
        · simp
        · simp [ih h2]

theorem dq_flatMap (l : List Char) :
    dq l = l.flatMap (fun c => if c = '"' then ['"', '"'] else [c]) := by
  induction l with
  | nil => rfl
  | cons c r ih => rw [dq, List.flatMap_cons, ← ih]; split <;> simp

/-- The characters a numeric literal may contain. -/
def numChar (c : Char) : Bool :=
  c.isDigit || c = '+' || c = '-' || c = '.' || c = 'e' || c = 'E'

theorem allDigits_numChar {l : List Char} (h : allDigits l = true) :
    l.all numChar = true := by
  rw [List.all_eq_true]
  intro c hc
  have := List.all_eq_true.1 h c hc
  simp [numChar, this]

theorem signDigits_numChar {l : List Char} (h : signDigits l = true) :
    l.all numChar = true := by
  cases l with
  | nil => rfl
  | cons c r =>
      simp only [signDigits] at h
      split at h
      · rename_i hc
        simp only [Bool.or_eq_true, decide_eq_true_eq] at hc
        simp only [Bool.and_eq_true] at h
        rw [List.all_cons, Bool.and_eq_true]
        refine ⟨?_, allDigits_numChar h.2⟩
        rcases hc with h1 | h1 <;> simp [numChar, h1]
      · exact allDigits_numChar h

theorem expOk_numChar {l : List Char} (h : expOk l = true) :
    l.all numChar = true := by
  cases l with
  | nil => rfl
  | cons c r =>
      simp only [expOk, Bool.and_eq_true] at h
      rw [List.all_cons, Bool.and_eq_true]
      refine ⟨?_, signDigits_numChar h.2⟩
      have h1 := h.1
      simp only [Bool.or_eq_true, decide_eq_true_eq] at h1
      rcases h1 with h1 | h1 <;> simp [numChar, h1]

theorem numCore_numChar {l : List Char} (h : numCore l = true) :
    l.all numChar = true := by
  have hsplit : l = l.takeWhile Char.isDigit ++ l.dropWhile Char.isDigit :=
    (List.takeWhile_append_dropWhile _ _).symm
  have htake : (l.takeWhile Char.isDigit).all numChar = true := by
    rw [List.all_eq_true]
    intro c hc
    simp [numChar, List.mem_takeWhile_imp hc]
  simp only [numCore] at h
  rw [hsplit, List.all_append, Bool.and_eq_true]
  refine ⟨htake, ?_⟩
  split at h
  · rename_i heq
    rw [heq]
    rfl
  · rename_i c r heq
    rw [heq]
    split at h
    · rename_i hc
      subst hc
      simp only [Bool.and_eq_true] at h
      have hsplit2 : r = r.takeWhile Char.isDigit ++ r.dropWhile Char.isDigit :=
        (List.takeWhile_append_dropWhile _ _).symm
      rw [List.all_cons, Bool.and_eq_true]
      refine ⟨by simp [numChar], ?_⟩
      rw [hsplit2, List.all_append, Bool.and_eq_true]
      refine ⟨?_, expOk_numChar h.2⟩
      rw [List.all_eq_true]
      intro x hx
      simp [numChar, List.mem_takeWhile_imp hx]
    · simp only [Bool.and_eq_true] at h
      exact expOk_numChar h.2

theorem numOk_numChar {l : List Char} (h : numOk l = true) :
    l.all numChar = true := by
  cases l with
  | nil => exact Bool.noConfusion h
  | cons c r =>
      simp only [numOk] at h
      split at h
      · rename_i hc
        simp only [Bool.or_eq_true, decide_eq_true_eq] at hc
        rw [List.all_cons, Bool.and_eq_true]
        refine ⟨?_, numCore_numChar h⟩
        rcases hc with h1 | h1 <;> simp [numChar, h1]
      · exact numCore_numChar h

theorem numOk_no_quote {l : List Char} (h : numOk l = true) : '"' ∉ l := by
  intro hq
  have := List.all_eq_true.1 (numOk_numChar h) _ hq
  simp [numChar] at this

theorem numOk_not_na {s : String} (h : numOk s.data = true) : isNa s = false := by
  by_contra hna
  have hmem : s ∈ naTokens := isNa_iff.1 (by simpa using hna)
  have hall : ∀ t ∈ naTokens, numOk t.data = false := by decide
  rw [hall s hmem] at h
  cases h

theorem parseNumCell_dq {s : String} (h : parseNumCell s = none) :
    parseNumCell (doubleQuotes s) = none := by
  by_cases hq : '"' ∈ s.data
  · have hq2 : '"' ∈ (doubleQuotes s).data := mem_dq_of_mem hq
    have h1 : doubleQuotes s ≠ "nan" := by
      intro he
      rw [he] at hq2
      simp at hq2
    have h2 : numOk (doubleQuotes s).data = false := by
      cases hn : numOk (doubleQuotes s).data with
      | false => rfl
      | true => exact absurd hq2 (numOk_no_quote hn)
    rw [parseNumCell, if_neg h1, h2]
    rfl
  · rwa [doubleQuotes, dq_eq_self hq]

theorem monthOk_elim {e f : Char} (h : monthOk e f = true) :
    (e = '0' ∨ e = '1') ∧ f.isDigit = true := by
  simp only [monthOk, Bool.or_eq_true, Bool.and_eq_true, decide_eq_true_eq] at h
  rcases h with ⟨⟨h1, -⟩, h2⟩ | ⟨h1, h2⟩
  · exact ⟨Or.inl h1, h2⟩
  · refine ⟨Or.inr h1, ?_⟩
    rcases h2 with (h3 | h3) | h3 <;> simp [h3]

theorem dayOk_elim {g h2 : Char} (h : dayOk g h2 = true) :
    (g = '0' ∨ g = '1' ∨ g = '2' ∨ g = '3') ∧ h2.isDigit = true := by
  simp only [dayOk, Bool.or_eq_true, Bool.and_eq_true, decide_eq_true_eq] at h
  rcases h with (⟨⟨h1, -⟩, h3⟩ | ⟨h1, h3⟩) | ⟨h1, h3⟩
  · exact ⟨Or.inl h1, h3⟩
  · rcases h1 with h4 | h4
    · exact ⟨Or.inr (Or.inl h4), h3⟩
    · exact ⟨Or.inr (Or.inr (Or.inl h4)), h3⟩
  · refine ⟨Or.inr (Or.inr (Or.inr h1)), ?_⟩
    rcases h3 with h4 | h4 <;> simp [h4]

theorem dateShape_elim {l : List Char} (h : dateShape l = true) :
    ∃ a b c d e f g h2, l = [a, b, c, d, '-', e, f, '-', g, h2]
      ∧ a.isDigit ∧ b.isDigit ∧ c.isDigit ∧ d.isDigit
      ∧ (e = '0' ∨ e = '1') ∧ f.isDigit
      ∧ (g = '0' ∨ g = '1' ∨ g = '2' ∨ g = '3') ∧ h2.isDigit := by
  rcases l with - | ⟨a, - | ⟨b, - | ⟨c, - | ⟨d, - | ⟨s1, - | ⟨e, - | ⟨f,
    - | ⟨s2, - | ⟨g, - | ⟨h2, - | ⟨x, t⟩⟩⟩⟩⟩⟩⟩⟩⟩⟩⟩ <;>
    try exact Bool.noConfusion h
  have h3 : dateCheck a b c d s1 e f s2 g h2 = true := h
  simp only [dateCheck, Bool.and_eq_true, decide_eq_true_eq] at h3
  obtain ⟨⟨⟨⟨⟨⟨⟨ha, hb⟩, hc⟩, hd⟩, hs1⟩, hs2⟩, hm⟩, hdy⟩ := h3
  subst hs1; subst hs2
  obtain ⟨he, hf⟩ := monthOk_elim hm
  obtain ⟨hg, hh⟩ := dayOk_elim hdy
  exact ⟨a, b, c, d, e, f, g, h2, rfl, ha, hb, hc, hd, he, hf, hg, hh⟩

theorem dateShape_length {l : List Char} (h : dateShape l = true) : l.length = 10 := by
  obtain ⟨a, b, c, d, e, f, g, h2, rfl, -⟩ := dateShape_elim h
  rfl

theorem dateShape_not_na {s : String} (h : dateShape s.data = true) : isNa s = false := by
  by_contra hna
  have hmem : s ∈ naTokens := isNa_iff.1 (by simpa using hna)
  have hall : ∀ t ∈ naTokens, t.data.length ≤ 8 := by decide
  have := hall s hmem
  rw [dateShape_length h] at this
  omega

theorem dateShape_no_quote {l : List Char} (h : dateShape l = true) : '"' ∉ l := by
  obtain ⟨a, b, c, d, e, f, g, h2, rfl, ha, hb, hc, hd, he, hf, hg, hh⟩ := dateShape_elim h
  intro hmem
  have hdig : ∀ x : Char, x.isDigit = true → x ≠ '"' := by
    intro x hx he
    rw [he] at hx
    simp [Char.isDigit] at hx
  simp only [List.mem_cons, List.not_mem_nil, or_false] at hmem
  rcases hmem with h1 | h1 | h1 | h1 | h1 | h1 | h1 | h1 | h1 | h1 <;>
    first
      | (exact hdig _ (by assumption) h1.symm)
      | (rcases he with h2 | h2 <;> simp [h2] at h1)
      | (rcases hg with h2 | h2 | h2 | h2 <;> simp [h2] at h1)

theorem numOk_of_digit_head {a : Char} {r : List Char} (ha : a.isDigit = true) :
    numOk (a :: r) = numCore (a :: r) := by
  have h1 : a ≠ '+' := by intro he; rw [he] at ha; exact Bool.noConfusion ha
  have h2 : a ≠ '-' := by intro he; rw [he] at ha; exact Bool.noConfusion ha
  simp only [numOk, Bool.or_eq_true, decide_eq_true_eq]
  rw [if_neg (by simp [h1, h2])]

theorem dateShape_numOk {l : List Char} (h : dateShape l = true) : numOk l = false := by
  obtain ⟨a, b, c, d, e, f, g, h2, rfl, ha, hb, hc, hd, -⟩ := dateShape_elim h
  have hstop : Char.isDigit '-' = false := by decide
  rw [numOk_of_digit_head ha]
  simp only [numCore]
  rw [List.dropWhile_cons_of_pos ha, List.dropWhile_cons_of_pos hb,
      List.dropWhile_cons_of_pos hc, List.dropWhile_cons_of_pos hd,
      List.dropWhile_cons_of_neg (by simp [hstop])]
  simp [expOk]

theorem parseNumCell_of_dateShape {s : String} (h : dateShape s.data = true) :
    parseNumCell s = none := by
  have h1 : s ≠ "nan" := by
    intro he
    rw [he] at h
    cases h
  rw [parseNumCell, if_neg h1, dateShape_numOk h]
  rfl

theorem parseDate_of_dateShape {s : String} (h : dateShape s.data = true) :
    parseDate s = some s := by
  rw [parseDate, if_pos h]

theorem getD_map_of_lt {α β : Type} (f : α → β) (l : List α) {i : Nat} (d : α)
    (d2 : β) (h : i < l.length) : (l.map f).getD i d2 = f (l.getD i d) := by
  rw [List.getD_eq_getElem _ _ (by simpa using h), List.getD_eq_getElem _ _ h,
    List.getElem_map]

theorem preprocess_ok_inv {f : RawFile} {snap : String} {cols : List String} {df : Df}
    (h : preprocess_and_save f = PResult.ok snap cols df) :
    snap = serializeDf df ∧ cols = df.cols.map Column.name
    ∧ ∃ df0, df = castStage (escapeStage df0)
      ∧ ((∃ text, f.content = FileContent.csv text
            ∧ endsWithStr f.name ".csv" = true ∧ readCsv text = Except.ok df0)
        ∨ (∃ x, f.content = FileContent.xlsx x
            ∧ readXlsx x = Except.ok df0)) := by
  obtain ⟨n, cnt⟩ := f
  by_cases h1 : endsWithStr n ".csv" = true
  · cases cnt with
    | csv text =>
        cases hr : readCsv text with
        | error e => simp [preprocess_and_save, h1, hr] at h
        | ok df0 =>
            simp only [preprocess_and_save, h1, hr, finishPipeline, if_true,
              PResult.ok.injEq] at h
            obtain ⟨hsnap, hcols, hdf⟩ := h
            subst hdf
            exact ⟨hsnap.symm, hcols.symm,
              df0, rfl, Or.inl ⟨text, rfl, h1, hr⟩⟩
    | xlsx x => simp [preprocess_and_save, h1] at h
  · by_cases h2 : endsWithStr n ".xlsx" = true
    · cases cnt with
      | csv text => simp [preprocess_and_save, h1, h2] at h
      | xlsx x =>
          cases hr : readXlsx x with
          | error e => simp [preprocess_and_save, h1, h2, hr] at h
          | ok df0 =>
              simp only [preprocess_and_save, h1, h2, hr, finishPipeline, if_true,
                Bool.false_eq_true, if_false, PResult.ok.injEq] at h
              obtain ⟨hsnap, hcols, hdf⟩ := h
              subst hdf
              exact ⟨hsnap.symm, hcols.symm, df0, rfl, Or.inr ⟨x, rfl, hr⟩⟩
    · simp [preprocess_and_save, h1, h2] at h

theorem dq_count_nl (l : List Char) : (dq l).count '\n' = l.count '\n' := by
  induction l with
  | nil => rfl
  | cons c r ih =>
      rw [dq]
      by_cases hc : c = '"'
      · rw [if_pos hc]
        subst hc
        simp [List.count_cons, ih]
      · rw [if_neg hc]
        simp [List.count_cons, ih]

theorem quoteFieldChars_count_nl {s : String} (h : s.data.count '\n' = 0) :
    (quoteFieldChars s).count '\n' = 0 := by
  simp [quoteFieldChars, List.count_cons, List.count_append, dq_count_nl, h]

theorem serRowChars_count_nl {fields : List String}
    (h : ∀ s ∈ fields, s.data.count '\n' = 0) :
    (serRowChars fields).count '\n' = 1 := by
  induction fields with
  | nil => rfl
  | cons f fs ih =>
      rw [serRowChars]
      by_cases hfs : fs.isEmpty
      · rw [if_pos hfs]
        rw [List.count_append,
          quoteFieldChars_count_nl (h f (List.mem_cons_self _ _))]
        rfl
      · rw [if_neg hfs, List.count_append, List.count_cons,
          quoteFieldChars_count_nl (h f (List.mem_cons_self _ _)),
          ih (fun s hs => h s (List.mem_cons_of_mem _ hs))]
        rfl

theorem serializeDf_count_nl {df : Df}
    (hnm : ∀ c ∈ df.cols, c.name.data.count '\n' = 0)
    (hcell : ∀ c ∈ df.cols, ∀ x ∈ c.cells, (serCell x).data.count '\n' = 0) :
    (serializeDf df).data.count '\n' = df.nrows + 1 := by
  have hrow : ∀ i, (serRowChars (df.rowAt i)).count '\n' = 1 := by
    intro i
    apply serRowChars_count_nl
    intro s hs
    simp only [Df.rowAt, List.mem_map] at hs
    obtain ⟨c, hc, rfl⟩ := hs
    by_cases hi : i < c.cells.length
    · exact hcell c hc _ (List.getD_eq_getElem c.cells Cell.null hi ▸
        List.getElem_mem hi)
    · rw [List.getD_eq_default _ _ (by omega)]
      rfl
  have hname : (serRowChars (df.cols.map Column.name)).count '\n' = 1 := by
    apply serRowChars_count_nl
    intro s hs
    simp only [List.mem_map] at hs
    obtain ⟨c, hc, rfl⟩ := hs
    exact hnm c hc
  show (serRowChars (df.cols.map Column.name) ++
    ((List.range df.nrows).map (fun i => serRowChars (df.rowAt i))).flatten).count '\n'
      = df.nrows + 1
  rw [List.count_append, hname, List.count_flatten]
  have : ((List.range df.nrows).map (fun i => serRowChars (df.rowAt i))).map
      (List.count '\n') = (List.range df.nrows).map (fun _ => 1) := by
    rw [List.map_map]
    exact List.map_congr_left (fun i _ => hrow i)
  rw [this]
  simp [List.map_const]
  omega

/-! ## Round-trip lemmas: the lexer inverts the serializer -/

theorem lexQuoted_cons (c : Char) (r : List Char) :
    lexQuoted (c :: r) =
      if c = '"' then
        match r with
        | [] => some ([], [])
        | c2 :: r2 =>
            if c2 = '"' then (lexQuoted r2).map (fun p => ('"' :: p.1, p.2))
            else some ([], c2 :: r2)
      else (lexQuoted r).map (fun p => (c :: p.1, p.2)) := by
  rw [lexQuoted.eq_def]

theorem lexFields_succ (fuel : Nat) (l : List Char) :
    lexFields (fuel + 1) l =
      match lexField l with
      | none => none
      | some (s, rest) =>
          match rest with
          | [] => some ([s], [])
          | c :: r =>
              if c = ',' then (lexFields fuel r).map (fun p => (s :: p.1, p.2))
              else if c = '\n' then some ([s], r)
              else none := by
  rw [lexFields.eq_def]

theorem lexRecords_succ (fuel : Nat) (l : List Char) :
    lexRecords (fuel + 1) l =
      match l with
      | [] => some []
      | c :: r =>
          if c = '\n' then lexRecords fuel r
          else
            match lexFields ((c :: r).length + 1) (c :: r) with
            | none => none
            | some (fs, rest) => (lexRecords fuel rest).map (fs :: ·) := by
  rw [lexRecords.eq_def]

theorem lexQuoted_encode (s : List Char) (rest : List Char)
    (h : rest.head? ≠ some '"') :
    lexQuoted (dq s ++ '"' :: rest) = some (s, rest) := by
  induction s with
  | nil =>
      show lexQuoted ('"' :: rest) = some ([], rest)
      rw [lexQuoted_cons, if_pos rfl]
      cases rest with
      | nil => rfl
      | cons c2 r2 =>
          have hc2 : c2 ≠ '"' := by
            intro he
            exact h (by rw [he]; rfl)
          show (if c2 = '"' then (lexQuoted r2).map (fun p => ('"' :: p.1, p.2))
            else some ([], c2 :: r2)) = some ([], c2 :: r2)
          rw [if_neg hc2]
  | cons c s ih =>
      rw [dq]
      by_cases hc : c = '"'
      · rw [if_pos hc, hc]
        show lexQuoted ('"' :: '"' :: (dq s ++ '"' :: rest)) = _
        rw [lexQuoted_cons, if_pos rfl]
        show (if ('"' : Char) = '"' then
            (lexQuoted (dq s ++ '"' :: rest)).map (fun p => ('"' :: p.1, p.2))
          else some ([], dq s ++ '"' :: rest)) = _
        rw [if_pos rfl, ih]
        rfl
      · rw [if_neg hc]
        show lexQuoted (c :: (dq s ++ '"' :: rest)) = _
        rw [lexQuoted_cons, if_neg hc, ih]
        rfl

theorem lexField_encode (f : String) (rest : List Char)
    (h : rest.head? ≠ some '"') :
    lexField (quoteFieldChars f ++ rest) = some (f, rest) := by
  show lexField ('"' :: (dq f.data ++ ['"']) ++ rest) = _
  rw [List.cons_append, List.append_assoc]
  show lexField ('"' :: (dq f.data ++ ('"' :: rest))) = _
  rw [lexField, if_pos rfl, lexQuoted_encode f.data rest h]
  rfl

theorem serRowChars_cons_head (f : String) (fs : List String) :
    ∃ t, serRowChars (f :: fs) = '"' :: t := by
  rw [serRowChars]
  by_cases hfs : fs.isEmpty
  · rw [if_pos hfs]
    exact ⟨_, rfl⟩
  · rw [if_neg hfs]
    exact ⟨_, rfl⟩

theorem serRowChars_length_ge (fs : List String) :
    fs.length + 1 ≤ (serRowChars fs).length := by
  induction fs with
  | nil => simp [serRowChars]
  | cons f fs ih =>
      rw [serRowChars]
      by_cases hfs : fs.isEmpty
      · rw [if_pos hfs]
        have he : fs = [] := List.isEmpty_iff.1 hfs
        subst he
        simp [quoteFieldChars]
      · rw [if_neg hfs]
        simp only [List.length_append, List.length_cons]
        have h2 : 2 ≤ (quoteFieldChars f).length := by
          simp only [quoteFieldChars, List.length_cons, List.length_append,
            List.length_singleton]
          omega
        omega

theorem lexFields_encode (fs : List String) (f : String) (rest : List Char)
    (fuel : Nat) (hfuel : fs.length + 1 ≤ fuel) :
    lexFields fuel (serRowChars (f :: fs) ++ rest) = some (f :: fs, rest) := by
  induction fs generalizing f rest fuel with
  | nil =>
      obtain ⟨fuel, rfl⟩ : ∃ k, fuel = k + 1 := ⟨fuel - 1, by omega⟩
      rw [show serRowChars [f] = quoteFieldChars f ++ ['\n'] from rfl,
        List.append_assoc, List.singleton_append]
      rw [lexFields_succ, lexField_encode f ('\n' :: rest) (by simp)]
      rfl
  | cons f2 fs ih =>
      obtain ⟨fuel, rfl⟩ : ∃ k, fuel = k + 1 := ⟨fuel - 1, by omega⟩
      rw [show serRowChars (f :: f2 :: fs) =
          quoteFieldChars f ++ ',' :: serRowChars (f2 :: fs) from rfl,
        List.append_assoc, List.cons_append]
      rw [lexFields_succ,
        lexField_encode f (',' :: (serRowChars (f2 :: fs) ++ rest)) (by simp)]
      show (lexFields fuel (serRowChars (f2 :: fs) ++ rest)).map
        (fun p => (f :: p.1, p.2)) = _
      rw [ih f2 rest fuel (by simp only [List.length_cons] at hfuel; omega)]
      rfl

/-- The serialized records of a table, record texts concatenated. -/
def encodeAll (rs : List (List String)) : List Char :=
  (rs.map serRowChars).flatten

theorem encodeAll_length_ge (rs : List (List String)) :
    rs.length ≤ (encodeAll rs).length := by
  induction rs with
  | nil => simp [encodeAll]
  | cons r rs ih =>
      rw [encodeAll, List.map_cons, List.flatten_cons, List.length_append]
      have h1 := serRowChars_length_ge r
      have h2 : (encodeAll rs).length = ((rs.map serRowChars).flatten).length := rfl
      simp only [List.length_cons]
      omega

theorem lexRecords_encode (rs : List (List String)) (fuel : Nat)
    (hne : ∀ r ∈ rs, r ≠ []) (hfuel : rs.length + 1 ≤ fuel) :
    lexRecords fuel (encodeAll rs) = some rs := by
  induction rs generalizing fuel with
  | nil =>
      obtain ⟨fuel, rfl⟩ : ∃ k, fuel = k + 1 := ⟨fuel - 1, by omega⟩
      rfl
  | cons r rs ih =>
      obtain ⟨fuel, rfl⟩ : ∃ k, fuel = k + 1 := ⟨fuel - 1, by omega⟩
      obtain ⟨f, fs, rfl⟩ : ∃ f fs, r = f :: fs := by
        cases r with
        | nil => exact absurd rfl (hne [] (List.mem_cons_self _ _))
        | cons f fs => exact ⟨f, fs, rfl⟩
      have henc : encodeAll ((f :: fs) :: rs) = serRowChars (f :: fs) ++ encodeAll rs := by
        rw [encodeAll, List.map_cons, List.flatten_cons]
        rfl
      obtain ⟨t, ht⟩ := serRowChars_cons_head f fs
      have hcons : encodeAll ((f :: fs) :: rs) = '"' :: (t ++ encodeAll rs) := by
        rw [henc, ht, List.cons_append]
      rw [hcons, lexRecords_succ]
      show (if ('"' : Char) = '\n' then lexRecords fuel (t ++ encodeAll rs)
        else match lexFields (('"' :: (t ++ encodeAll rs)).length + 1)
            ('"' :: (t ++ encodeAll rs)) with
          | none => none
          | some (fs2, rest) => (lexRecords fuel rest).map (fs2 :: ·)) = _
      rw [if_neg (by decide)]
      have hback : ('"' :: (t ++ encodeAll rs)) = serRowChars (f :: fs) ++ encodeAll rs := by
        rw [ht, List.cons_append]
      rw [hback]
      have hlen : fs.length + 1 ≤ (serRowChars (f :: fs) ++ encodeAll rs).length + 1 := by
        have h1 := serRowChars_length_ge (f :: fs)
        simp only [List.length_cons] at h1
        simp only [List.length_append]
        omega
      rw [lexFields_encode fs f (encodeAll rs) _ hlen]
      show (lexRecords fuel (encodeAll rs)).map ((f :: fs) :: ·) = _
      rw [ih fuel (fun x hx => hne x (List.mem_cons_of_mem _ hx))
        (by simp only [List.length_cons] at hfuel; omega)]
      rfl

theorem lexFields_ne_nil {fuel : Nat} {l : List Char} {fs : List String}
    {rest : List Char} (h : lexFields fuel l = some (fs, rest)) : fs ≠ [] := by
  induction fuel generalizing l fs rest with
  | zero => exact Option.noConfusion h
  | succ fuel ih =>
      rw [lexFields_succ] at h
      cases hf : lexField l with
      | none => rw [hf] at h; exact Option.noConfusion h
      | some p =>
          obtain ⟨s, rest2⟩ := p
          rw [hf] at h
          cases rest2 with
          | nil =>
              replace h : some ([s], ([] : List Char)) = some (fs, rest) := h
              cases Option.some.inj h
              simp
          | cons c r =>
              replace h : (if c = ',' then
                  (lexFields fuel r).map (fun p => (s :: p.1, p.2))
                else if c = '\n' then some ([s], r)
                else none) = some (fs, rest) := h
              by_cases hc : c = ','
              · rw [if_pos hc] at h
                cases hrec : lexFields fuel r with
                | none => rw [hrec] at h; exact Option.noConfusion h
                | some p2 =>
                    rw [hrec] at h
                    replace h : some (s :: p2.1, p2.2) = some (fs, rest) := h
                    cases Option.some.inj h
                    simp
              · rw [if_neg hc] at h
                by_cases hn : c = '\n'
                · rw [if_pos hn] at h
                  replace h : some ([s], r) = some (fs, rest) := h
                  cases Option.some.inj h
                  simp
                · rw [if_neg hn] at h
                  exact Option.noConfusion h

theorem lexRecords_ne_nil {fuel : Nat} {l : List Char} {rs : List (List String)}
    (h : lexRecords fuel l = some rs) : ∀ r ∈ rs, r ≠ [] := by
  induction fuel generalizing l rs with
  | zero => exact Option.noConfusion h
  | succ fuel ih =>
      rw [lexRecords_succ] at h
      cases l with
      | nil =>
          replace h : some ([] : List (List String)) = some rs := h
          simp only [Option.some.injEq] at h
          subst h
          intro r hr
          cases hr
      | cons c t =>
          replace h : (if c = '\n' then lexRecords fuel t
            else match lexFields ((c :: t).length + 1) (c :: t) with
              | none => none
              | some (fs, rest) => (lexRecords fuel rest).map (fs :: ·)) = some rs := h
          by_cases hc : c = '\n'
          · rw [if_pos hc] at h
            exact ih h
          · rw [if_neg hc] at h
            cases hf : lexFields ((c :: t).length + 1) (c :: t) with
            | none => rw [hf] at h; exact Option.noConfusion h
            | some p =>
                obtain ⟨fs, rest⟩ := p
                rw [hf] at h
                replace h : (lexRecords fuel rest).map (fs :: ·) = some rs := h
                cases hrec : lexRecords fuel rest with
                | none => rw [hrec] at h; exact Option.noConfusion h
                | some rs2 =>
                    rw [hrec] at h
                    replace h : some (fs :: rs2) = some rs := h
                    cases Option.some.inj h
                    intro r hr
                    rcases List.mem_cons.1 hr with rfl | hr2
                    · exact lexFields_ne_nil hf
                    · exact ih hrec r hr2

theorem serializeDf_data (df : Df) :
    (serializeDf df).data =
      encodeAll ((df.cols.map Column.name) ::
        (List.range df.nrows).map df.rowAt) := by
  show serRowChars (df.cols.map Column.name) ++
      ((List.range df.nrows).map (fun i => serRowChars (df.rowAt i))).flatten =
    ((((df.cols.map Column.name) :: (List.range df.nrows).map df.rowAt)).map
      serRowChars).flatten
  rw [List.map_cons, List.flatten_cons, List.map_map]
  rfl

theorem lexCsv_serializeDf (df : Df) (hcols : df.cols ≠ []) :
    lexCsv (serializeDf df) =
      some ((df.cols.map Column.name) :: (List.range df.nrows).map df.rowAt) := by
  rw [lexCsv, serializeDf_data]
  apply lexRecords_encode
  · intro r hr
    rcases List.mem_cons.1 hr with rfl | hr2
    · simpa using hcols
    · simp only [List.mem_map] at hr2
      obtain ⟨i, -, rfl⟩ := hr2
      simp [Df.rowAt, hcols]
  · have := encodeAll_length_ge
      ((df.cols.map Column.name) :: (List.range df.nrows).map df.rowAt)
    omega

theorem range_map_getD {α β : Type} {l : List α} {n : Nat} (h : l.length = n)
    (f : α → β) (d : α) :
    (List.range n).map (fun i => f (l.getD i d)) = l.map f := by
  apply List.ext_getElem
  · simp [h]
  · intro i h1 h2
    simp only [List.getElem_map, List.getElem_range]
    rw [List.getD_eq_getElem l d (by simp at h2; omega)]

theorem readCsv_step {text : String} {hdr : List String}
    {rows : List (List String)} (h : lexCsv text = some (hdr :: rows)) :
    readCsv text =
      if rows.all (fun r => r.length = hdr.length) then
        Except.ok ⟨(List.range hdr.length).map (fun j =>
          mkReadCol (hdr.getD j "") (rows.map (fun r => r.getD j "")))⟩
      else Except.error "Error tokenizing data" := by
  rw [readCsv.eq_def, h]

theorem readCsv_serializeDf (df : Df) (hcols : df.cols ≠ [])
    (hrect : ∀ c ∈ df.cols, c.cells.length = df.nrows) :
    readCsv (serializeDf df) =
      Except.ok ⟨df.cols.map (fun c => mkReadCol c.name (c.cells.map serCell))⟩ := by
  rw [readCsv_step (lexCsv_serializeDf df hcols)]
  have hrowlen : ∀ r ∈ (List.range df.nrows).map df.rowAt,
      r.length = (df.cols.map Column.name).length := by
    intro r hr
    simp only [List.mem_map] at hr
    obtain ⟨i, -, rfl⟩ := hr
    simp [Df.rowAt]
  rw [if_pos (List.all_eq_true.2 (fun r hr => by
    simpa using hrowlen r hr))]
  congr 1
  apply congrArg Df.mk
  apply List.ext_getElem
  · simp
  · intro j h1 h2
    simp only [List.getElem_map, List.getElem_range]
    have hj : j < df.cols.length := by simpa using h2
    have hname : (df.cols.map Column.name).getD j "" = df.cols[j].name := by
      rw [getD_map_of_lt Column.name df.cols default "" hj,
        List.getD_eq_getElem _ _ hj]
    have hraws : ((List.range df.nrows).map df.rowAt).map (fun r => r.getD j "") =
        df.cols[j].cells.map serCell := by
      rw [List.map_map]
      have hcell : ∀ i : Nat,
          (df.rowAt i).getD j "" = serCell (df.cols[j].cells.getD i Cell.null) := by
        intro i
        show ((df.cols.map (fun c => serCell (c.cells.getD i Cell.null))).getD j "") = _
        rw [getD_map_of_lt (fun c => serCell (c.cells.getD i Cell.null))
          df.cols default "" hj, List.getD_eq_getElem _ _ hj]
      calc (List.range df.nrows).map ((fun r => r.getD j "") ∘ df.rowAt)
          = (List.range df.nrows).map
              (fun i => serCell (df.cols[j].cells.getD i Cell.null)) := by
            apply List.map_congr_left
            intro i _
            exact hcell i
        _ = df.cols[j].cells.map serCell :=
            range_map_getD (hrect df.cols[j] (List.getElem_mem hj)) serCell Cell.null
    rw [hname, hraws]

/-! ## The shape of a pipeline-produced column, and the round trip -/

/-- A well-formed numeric value: `to_numeric` parses it to itself. -/
def NumGood (v : String) : Prop := parseNumCell v = some (Cell.num v)

/-- The invariant of a column produced by the csv pipeline
(read, escape, cast): an object column is all strings, contains no NA
token other than `nan`, is not date-named and has a cell failing
numeric parsing (else the cast would have converted it); a numeric
column is not date-named and holds nulls and well-formed numbers; a
datetime column is date-named and holds nulls and well-formed dates. -/
def FinColP (c : Column) : Prop :=
  (c.dtype = DType.object →
      hasDate c.name = false
      ∧ (∀ x ∈ c.cells, ∃ s, x = Cell.str s ∧ (isNa s = true → s = "nan"))
      ∧ ∃ s, Cell.str s ∈ c.cells ∧ parseNumCell s = none)
  ∧ (c.dtype = DType.numeric →
      hasDate c.name = false
      ∧ ∀ x ∈ c.cells, x = Cell.null ∨ ∃ v, x = Cell.num v ∧ NumGood v)
  ∧ (c.dtype = DType.datetime →
      hasDate c.name = true
      ∧ ∀ x ∈ c.cells, x = Cell.null ∨ ∃ v, x = Cell.date v ∧ dateShape v.data = true)

theorem parseNumCell_cases {s : String} {y : Cell} (h : parseNumCell s = some y) :
    y = Cell.null ∨ (y = Cell.num s ∧ NumGood s) := by
  rw [parseNumCell] at h
  by_cases h1 : s = "nan"
  · rw [if_pos h1] at h
    exact Or.inl (Option.some.inj h).symm
  · rw [if_neg h1] at h
    by_cases h2 : numOk s.data
    · rw [if_pos h2] at h
      refine Or.inr ⟨(Option.some.inj h).symm, ?_⟩
      rw [NumGood, parseNumCell, if_neg h1, if_pos h2]
    · rw [if_neg h2] at h
      exact Option.noConfusion h

theorem NumGood_elim {v : String} (h : NumGood v) :
    v ≠ "nan" ∧ numOk v.data = true ∧ isNa v = false := by
  rw [NumGood, parseNumCell] at h
  by_cases h1 : v = "nan"
  · rw [if_pos h1] at h
    exact absurd (Option.some.inj h) (by simp)
  · refine ⟨h1, ?_⟩
    rw [if_neg h1] at h
    by_cases h2 : numOk v.data
    · exact ⟨h2, numOk_not_na h2⟩
    · rw [if_neg h2] at h
      exact Option.noConfusion h

theorem naTokens_no_quote : ∀ u ∈ naTokens, ('"' : Char) ∉ u.data := by decide

theorem isNa_doubleQuotes {s : String} (h : isNa s = false) :
    isNa (doubleQuotes s) = false := by
  by_cases hq : ('"' : Char) ∈ s.data
  · have hq2 : ('"' : Char) ∈ (doubleQuotes s).data := mem_dq_of_mem hq
    cases hna : isNa (doubleQuotes s) with
    | false => rfl
    | true => exact absurd hq2 (naTokens_no_quote _ (isNa_iff.1 hna))
  · rwa [doubleQuotes, dq_eq_self hq]

theorem rawCell_some {raw s : String} (h : rawCell raw = some s) :
    raw = s ∧ isNa s = false := by
  rw [rawCell] at h
  by_cases h1 : isNa raw
  · rw [if_pos h1] at h
    exact Option.noConfusion h
  · rw [if_neg h1] at h
    obtain rfl := Option.some.inj h
    exact ⟨rfl, by simpa using h1⟩

theorem rawCell_not_na {s : String} (h : isNa s = false) : rawCell s = some s := by
  simp [rawCell, h]

theorem mkReadCol_cells_shape (name : String) (raws : List String) :
    ∀ x ∈ (mkReadCol name raws).cells,
      x = Cell.null ∨ (∃ v, x = Cell.num v ∧ NumGood v)
        ∨ (∃ s, x = Cell.str s ∧ isNa s = false) := by
  intro x hx
  rw [mkReadCol] at hx
  split at hx
  · rename_i hall
    obtain ⟨v, hv, rfl⟩ := List.mem_map.1 hx
    cases v with
    | none => exact Or.inl rfl
    | some s =>
        have hchk : (parseNumCell s).isSome = true :=
          List.all_eq_true.1 hall (some s) hv
        cases hp : parseNumCell s with
        | none => rw [hp] at hchk; exact Bool.noConfusion hchk
        | some y =>
            rcases parseNumCell_cases hp with rfl | ⟨rfl, hg⟩
            · refine Or.inl ?_
              show readNumVal (some s) = Cell.null
              rw [readNumVal, hp]
              rfl
            · refine Or.inr (Or.inl ⟨s, ?_, hg⟩)
              show readNumVal (some s) = Cell.num s
              rw [readNumVal, hp]
              rfl
  · obtain ⟨v, hv, rfl⟩ := List.mem_map.1 hx
    cases v with
    | none => exact Or.inl rfl
    | some s =>
        obtain ⟨raw, -, hraw⟩ := List.mem_map.1 hv
        obtain ⟨-, hna⟩ := rawCell_some hraw
        exact Or.inr (Or.inr ⟨s, rfl, hna⟩)

theorem mkReadCol_numeric_cells {name : String} {raws : List String}
    (h : (mkReadCol name raws).dtype = DType.numeric) :
    ∀ x ∈ (mkReadCol name raws).cells,
      x = Cell.null ∨ ∃ v, x = Cell.num v ∧ NumGood v := by
  intro x hx
  rcases mkReadCol_cells_shape name raws x hx with h1 | h1 | ⟨s, rfl, hna⟩
  · exact Or.inl h1
  · exact Or.inr h1
  · exfalso
    by_cases hc : ((raws.map rawCell).all numCheckVal) = true
    · rw [mkReadCol, if_pos hc] at hx
      obtain ⟨v, -, hv⟩ := List.mem_map.1 hx
      cases v with
      | none => exact Cell.noConfusion hv
      | some s2 =>
          replace hv : (parseNumCell s2).getD Cell.null = Cell.str s := hv
          cases hp : parseNumCell s2 with
          | none => rw [hp] at hv; exact Cell.noConfusion hv
          | some y =>
              rw [hp] at hv
              rcases parseNumCell_cases hp with rfl | ⟨rfl, -⟩ <;>
                exact Cell.noConfusion hv
    · rw [mkReadCol, if_neg hc] at h
      exact DType.noConfusion h

theorem mkReadCol_object_cells {name : String} {raws : List String}
    (h : (mkReadCol name raws).dtype = DType.object) :
    ∀ x ∈ (mkReadCol name raws).cells,
      x = Cell.null ∨ ∃ s, x = Cell.str s ∧ isNa s = false := by
  intro x hx
  rcases mkReadCol_cells_shape name raws x hx with h1 | ⟨v, rfl, -⟩ | h1
  · exact Or.inl h1
  · exfalso
    by_cases hc : ((raws.map rawCell).all numCheckVal) = true
    · rw [mkReadCol, if_pos hc] at h
      exact DType.noConfusion h
    · rw [mkReadCol, if_neg hc] at hx
      obtain ⟨w, -, hw⟩ := List.mem_map.1 hx
      cases w with
      | none => exact Cell.noConfusion hw
      | some s2 => exact Cell.noConfusion hw
  · exact Or.inr h1

theorem mkReadCol_object_exists {name : String} {raws : List String}
    (h : (mkReadCol name raws).dtype = DType.object) :
    ∃ s, Cell.str s ∈ (mkReadCol name raws).cells ∧ parseNumCell s = none := by
  rw [mkReadCol] at h ⊢
  split at h
  · exact DType.noConfusion h
  · rename_i hnall
    rw [if_neg hnall]
    have h2 : ∃ v ∈ raws.map rawCell, numCheckVal v = false := by
      by_contra hcon
      push_neg at hcon
      exact hnall (List.all_eq_true.2 (fun v hv => by
        cases hb : numCheckVal v with
        | true => rfl
        | false => exact absurd hb (hcon v hv)))
    obtain ⟨v, hv, hvf⟩ := h2
    cases v with
    | none => exact Bool.noConfusion hvf
    | some s =>
        replace hvf : (parseNumCell s).isSome = false := hvf
        refine ⟨s, ?_, ?_⟩
        · exact List.mem_map.2 ⟨some s, hv, rfl⟩
        · cases hp : parseNumCell s with
          | none => rfl
          | some y => rw [hp] at hvf; exact Bool.noConfusion hvf

theorem parseDate_some {s v : String} (h : parseDate s = some v) :
    v = s ∧ dateShape s.data = true := by
  rw [parseDate] at h
  by_cases h1 : dateShape s.data
  · rw [if_pos h1] at h
    exact ⟨(Option.some.inj h).symm, h1⟩
  · rw [if_neg h1] at h
    exact Option.noConfusion h

theorem toDatetimeCell_shape (y : Cell) (hy : ∀ v, y ≠ Cell.date v) :
    toDatetimeCell y = Cell.null
      ∨ ∃ v, toDatetimeCell y = Cell.date v ∧ dateShape v.data = true := by
  cases y with
  | null => exact Or.inl rfl
  | num v => exact Or.inl rfl
  | date v => exact absurd rfl (hy v)
  | str s =>
      rw [show toDatetimeCell (Cell.str s) =
        (match parseDate s with
          | some v => Cell.date v
          | none => Cell.null) from rfl]
      cases hp : parseDate s with
      | none => exact Or.inl rfl
      | some v =>
          obtain ⟨hv, hds⟩ := parseDate_some hp
          exact Or.inr ⟨v, rfl, by rw [hv]; exact hds⟩

theorem mkReadCol_dtype (name : String) (raws : List String) :
    (mkReadCol name raws).dtype = DType.numeric
      ∨ (mkReadCol name raws).dtype = DType.object := by
  rw [mkReadCol]
  split
  · exact Or.inl rfl
  · exact Or.inr rfl

theorem mkReadCol_name (name : String) (raws : List String) :
    (mkReadCol name raws).name = name := by
  rw [mkReadCol]
  split <;> rfl

theorem mkReadCol_length (name : String) (raws : List String) :
    (mkReadCol name raws).cells.length = raws.length := by
  rw [mkReadCol]
  split <;> simp

theorem escapeCol_name (c : Column) : (escapeCol c).name = c.name := by
  rw [escapeCol]
  split <;> rfl

theorem escapeCol_length (c : Column) :
    (escapeCol c).cells.length = c.cells.length := by
  rw [escapeCol]
  split <;> simp

theorem escapeCol_object {c : Column} (h : c.dtype = DType.object) :
    escapeCol c = ⟨c.name, DType.object, c.cells.map escCell⟩ := by
  rw [escapeCol, if_pos h]

theorem escapeCol_nonobject {c : Column} (h : c.dtype ≠ DType.object) :
    escapeCol c = c := by
  rw [escapeCol, if_neg h]

theorem castCol_date {c : Column} (h : hasDate c.name = true) :
    castCol c = ⟨c.name, DType.datetime, c.cells.map toDatetimeCell⟩ := by
  rw [castCol, if_pos h]

theorem castCol_keep {c : Column} (h1 : hasDate c.name = false)
    (h2 : c.dtype ≠ DType.object) : castCol c = c := by
  rw [castCol, if_neg (by simp [h1]), if_neg h2]

theorem castCol_obj_num {c : Column} (h1 : hasDate c.name = false)
    (h2 : c.dtype = DType.object) (h3 : c.cells.all numCheckCell = true) :
    castCol c = ⟨c.name, DType.numeric, c.cells.map toNumericCell⟩ := by
  rw [castCol, if_neg (by simp [h1]), if_pos h2, if_pos h3]

theorem castCol_obj_keep {c : Column} (h1 : hasDate c.name = false)
    (h2 : c.dtype = DType.object) (h3 : ¬c.cells.all numCheckCell = true) :
    castCol c = c := by
  rw [castCol, if_neg (by simp [h1]), if_pos h2, if_neg h3]

theorem finCol_cast_of_numeric {c : Column} (hdt : c.dtype = DType.numeric)
    (hcells : ∀ x ∈ c.cells, x = Cell.null ∨ ∃ v, x = Cell.num v ∧ NumGood v) :
    FinColP (castCol c) := by
  by_cases hd : hasDate c.name = true
  · rw [castCol_date hd]
    refine ⟨fun h => DType.noConfusion h, fun h => DType.noConfusion h, fun _ => ⟨hd, ?_⟩⟩
    intro x hx
    obtain ⟨y, hy, rfl⟩ := List.mem_map.1 hx
    apply toDatetimeCell_shape
    intro v hv
    rcases hcells y hy with rfl | ⟨w, rfl, -⟩ <;> exact Cell.noConfusion hv
  · have hd2 : hasDate c.name = false := by
      cases hb : hasDate c.name with
      | true => exact absurd hb hd
      | false => rfl
    rw [castCol_keep hd2 (by rw [hdt]; exact fun h => DType.noConfusion h)]
    refine ⟨fun h => ?_, fun _ => ⟨hd2, hcells⟩, fun h => ?_⟩ <;>
      (rw [hdt] at h; exact DType.noConfusion h)

theorem finCol_cast_of_object {c : Column} (hdt : c.dtype = DType.object)
    (hcells : ∀ x ∈ c.cells, ∃ t, x = Cell.str t ∧ (isNa t = true → t = "nan")) :
    FinColP (castCol c) := by
  by_cases hd : hasDate c.name = true
  · rw [castCol_date hd]
    refine ⟨fun h => DType.noConfusion h, fun h => DType.noConfusion h, fun _ => ⟨hd, ?_⟩⟩
    intro x hx
    obtain ⟨y, hy, rfl⟩ := List.mem_map.1 hx
    apply toDatetimeCell_shape
    intro v hv
    obtain ⟨t, rfl, -⟩ := hcells y hy
    exact Cell.noConfusion hv
  · have hd2 : hasDate c.name = false := by
      cases hb : hasDate c.name with
      | true => exact absurd hb hd
      | false => rfl
    by_cases hall : c.cells.all numCheckCell = true
    · rw [castCol_obj_num hd2 hdt hall]
      refine ⟨fun h => DType.noConfusion h, fun _ => ⟨hd2, ?_⟩, fun h => DType.noConfusion h⟩
      intro x hx
      obtain ⟨y, hy, rfl⟩ := List.mem_map.1 hx
      obtain ⟨t, rfl, -⟩ := hcells y hy
      have hchk : (parseNumCell t).isSome = true := List.all_eq_true.1 hall _ hy
      cases hp : parseNumCell t with
      | none => rw [hp] at hchk; exact Bool.noConfusion hchk
      | some y2 =>
          rcases parseNumCell_cases hp with rfl | ⟨rfl, hg⟩
          · refine Or.inl ?_
            show toNumericCell (Cell.str t) = Cell.null
            rw [toNumericCell, hp]
            rfl
          · refine Or.inr ⟨t, ?_, hg⟩
            show toNumericCell (Cell.str t) = Cell.num t
            rw [toNumericCell, hp]
            rfl
    · rw [castCol_obj_keep hd2 hdt hall]
      refine ⟨fun _ => ⟨hd2, hcells, ?_⟩, fun h => ?_, fun h => ?_⟩
      · have h2 : ∃ x ∈ c.cells, numCheckCell x = false := by
          by_contra hcon
          push_neg at hcon
          exact hall (List.all_eq_true.2 (fun x hx => by
            cases hb : numCheckCell x with
            | true => rfl
            | false => exact absurd hb (hcon x hx)))
        obtain ⟨x, hx, hxf⟩ := h2
        obtain ⟨t, rfl, -⟩ := hcells x hx
        replace hxf : (parseNumCell t).isSome = false := hxf
        refine ⟨t, hx, ?_⟩
        cases hp : parseNumCell t with
        | none => rfl
        | some y => rw [hp] at hxf; exact Bool.noConfusion hxf
      · rw [hdt] at h; exact DType.noConfusion h
      · rw [hdt] at h; exact DType.noConfusion h

theorem finCol_read (name : String) (raws : List String) :
    FinColP (castCol (escapeCol (mkReadCol name raws))) := by
  rcases mkReadCol_dtype name raws with hn | ho
  · rw [escapeCol_nonobject (by rw [hn]; exact fun h => DType.noConfusion h)]
    exact finCol_cast_of_numeric hn (mkReadCol_numeric_cells hn)
  · rw [escapeCol_object ho]
    apply finCol_cast_of_object rfl
    intro x hx
    obtain ⟨y, hy, rfl⟩ := List.mem_map.1 hx
    rcases mkReadCol_object_cells ho y hy with rfl | ⟨s, rfl, hna⟩
    · exact ⟨"nan", rfl, fun _ => rfl⟩
    · refine ⟨doubleQuotes s, rfl, fun hna2 => ?_⟩
      rw [isNa_doubleQuotes hna] at hna2
      exact Bool.noConfusion hna2

theorem castCol_name (c : Column) : (castCol c).name = c.name := by
  rw [castCol]
  split
  · rfl
  · split
    · split <;> rfl
    · rfl

theorem castCol_length (c : Column) :
    (castCol c).cells.length = c.cells.length := by
  rw [castCol]
  split
  · simp
  · split
    · split <;> simp
    · rfl

theorem mkReadCol_pos {name : String} {raws : List String}
    (h : ((raws.map rawCell).all numCheckVal) = true) :
    mkReadCol name raws = ⟨name, DType.numeric, (raws.map rawCell).map readNumVal⟩ := by
  rw [mkReadCol, if_pos h]

theorem mkReadCol_neg {name : String} {raws : List String}
    (h : ¬((raws.map rawCell).all numCheckVal) = true) :
    mkReadCol name raws = ⟨name, DType.object, (raws.map rawCell).map readStrVal⟩ := by
  rw [mkReadCol, if_neg h]

theorem map_eq_self_of {α : Type} {l : List α} {F : α → α}
    (h : ∀ x ∈ l, F x = x) : l.map F = l := by
  conv_rhs => rw [← List.map_id l]
  exact List.map_congr_left h

theorem escapeCol_lit_object (n : String) (l : List Cell) :
    escapeCol ⟨n, DType.object, l⟩ = ⟨n, DType.object, l.map escCell⟩ := by
  rw [escapeCol, if_pos rfl]

theorem escapeCol_lit_keep (n : String) (d : DType) (l : List Cell)
    (h : d ≠ DType.object) : escapeCol ⟨n, d, l⟩ = ⟨n, d, l⟩ := by
  rw [escapeCol, if_neg h]

theorem castCol_lit_date (n : String) (d : DType) (l : List Cell)
    (h : hasDate n = true) :
    castCol ⟨n, d, l⟩ = ⟨n, DType.datetime, l.map toDatetimeCell⟩ := by
  rw [castCol, if_pos h]

theorem castCol_lit_keep (n : String) (d : DType) (l : List Cell)
    (h1 : hasDate n = false) (h2 : d ≠ DType.object) :
    castCol ⟨n, d, l⟩ = ⟨n, d, l⟩ := by
  rw [castCol, if_neg (by simp [h1]), if_neg h2]

theorem castCol_lit_obj_keep (n : String) (l : List Cell)
    (h1 : hasDate n = false) (h3 : ¬l.all numCheckCell = true) :
    castCol ⟨n, DType.object, l⟩ = ⟨n, DType.object, l⟩ := by
  rw [castCol, if_neg (by simp [h1]), if_pos rfl, if_neg h3]

theorem castCol_lit_obj_num (n : String) (l : List Cell)
    (h1 : hasDate n = false) (h3 : l.all numCheckCell = true) :
    castCol ⟨n, DType.object, l⟩ = ⟨n, DType.numeric, l.map toNumericCell⟩ := by
  rw [castCol, if_neg (by simp [h1]), if_pos rfl, if_pos h3]

theorem nonNull_of_all_str {n : String} {d : DType} {l : List Cell}
    (h : ∀ x ∈ l, ∃ s, x = Cell.str s) :
    (⟨n, d, l⟩ : Column).nonNull = l.length := by
  rw [Column.nonNull]
  refine List.countP_eq_length.2 ?_
  intro a ha
  obtain ⟨s, rfl⟩ := h a ha
  simp

/-- The central round-trip fact: re-reading the serialization of a
pipeline-produced column and pushing it through the escape and cast
stages again preserves its number of non-null cells. -/
theorem roundtrip_col (c : Column) (hF : FinColP c) :
    (castCol (escapeCol (mkReadCol c.name (c.cells.map serCell)))).nonNull
      = c.nonNull := by
  cases hdt : c.dtype with
  | object =>
      obtain ⟨hd, hcells, s0, hs0, hfail⟩ := hF.1 hdt
      have hs0na : isNa s0 = false := by
        obtain ⟨s, hseq, himp⟩ := hcells _ hs0
        obtain rfl : s0 = s := Cell.str.inj hseq
        cases hb : isNa s0 with
        | false => rfl
        | true =>
            rw [himp hb] at hfail
            exact absurd hfail (by decide)
      have hs0raw : s0 ∈ c.cells.map serCell :=
        List.mem_map.2 ⟨Cell.str s0, hs0, rfl⟩
      have hcond : ¬(((c.cells.map serCell).map rawCell).all numCheckVal = true) := by
        intro hall
        have hv : rawCell s0 ∈ (c.cells.map serCell).map rawCell :=
          List.mem_map.2 ⟨s0, hs0raw, rfl⟩
        have h2 := List.all_eq_true.1 hall _ hv
        rw [rawCell_not_na hs0na] at h2
        replace h2 : (parseNumCell s0).isSome = true := h2
        rw [hfail] at h2
        exact Bool.noConfusion h2
      rw [mkReadCol_neg hcond, escapeCol_lit_object]
      have hmem3 : Cell.str (doubleQuotes s0) ∈
          ((((c.cells.map serCell).map rawCell).map readStrVal).map escCell) := by
        refine List.mem_map.2 ⟨Cell.str s0, ?_, rfl⟩
        refine List.mem_map.2 ⟨some s0, ?_, rfl⟩
        exact List.mem_map.2 ⟨s0, hs0raw, rawCell_not_na hs0na⟩
      have hnall : ¬((((((c.cells.map serCell).map rawCell).map readStrVal).map
          escCell)).all numCheckCell = true) := by
        intro hall
        have h2 := List.all_eq_true.1 hall _ hmem3
        replace h2 : (parseNumCell (doubleQuotes s0)).isSome = true := h2
        rw [parseNumCell_dq hfail] at h2
        exact Bool.noConfusion h2
      rw [castCol_lit_obj_keep _ _ hd hnall]
      have hall3 : ∀ x ∈ ((((c.cells.map serCell).map rawCell).map readStrVal).map
          escCell), ∃ s, x = Cell.str s := by
        intro x hx
        obtain ⟨y, -, rfl⟩ := List.mem_map.1 hx
        exact ⟨_, rfl⟩
      rw [nonNull_of_all_str hall3]
      have hcnn : c.nonNull = c.cells.length := by
        rw [Column.nonNull]
        refine List.countP_eq_length.2 ?_
        intro a ha
        obtain ⟨s, rfl, -⟩ := hcells a ha
        simp
      rw [hcnn]
      simp
  | numeric =>
      obtain ⟨hd, hcells⟩ := hF.2.1 hdt
      have hcond : (((c.cells.map serCell).map rawCell).all numCheckVal) = true := by
        rw [List.all_eq_true]
        intro v hv
        obtain ⟨s, hs, rfl⟩ := List.mem_map.1 hv
        obtain ⟨x, hx, rfl⟩ := List.mem_map.1 hs
        rcases hcells x hx with rfl | ⟨w, rfl, hg⟩
        · rfl
        · obtain ⟨-, -, hna⟩ := NumGood_elim hg
          rw [show serCell (Cell.num w) = w from rfl, rawCell_not_na hna]
          show (parseNumCell w).isSome = true
          rw [hg]
          rfl
      rw [mkReadCol_pos hcond]
      have hcells2 : (((c.cells.map serCell).map rawCell).map readNumVal) = c.cells := by
        rw [List.map_map, List.map_map]
        apply map_eq_self_of
        intro x hx
        rcases hcells x hx with rfl | ⟨w, rfl, hg⟩
        · rfl
        · obtain ⟨-, -, hna⟩ := NumGood_elim hg
          show readNumVal (rawCell (serCell (Cell.num w))) = Cell.num w
          rw [show serCell (Cell.num w) = w from rfl, rawCell_not_na hna]
          show (parseNumCell w).getD Cell.null = Cell.num w
          rw [hg]
          rfl
      rw [hcells2]
      rw [escapeCol_lit_keep _ _ _ (fun h => DType.noConfusion h),
        castCol_lit_keep _ _ _ hd (fun h => DType.noConfusion h)]
      rfl
  | datetime =>
      obtain ⟨hd, hcells⟩ := hF.2.2 hdt
      by_cases hexd : ∃ v, Cell.date v ∈ c.cells
      · obtain ⟨v0, hv0⟩ := hexd
        have hds0 : dateShape v0.data = true := by
          rcases hcells _ hv0 with h1 | ⟨w, hw, hdw⟩
          · exact absurd h1 (by simp)
          · obtain rfl : v0 = w := Cell.date.inj hw
            exact hdw
        have hv0na : isNa v0 = false := dateShape_not_na hds0
        have hfail0 : parseNumCell v0 = none := parseNumCell_of_dateShape hds0
        have hv0raw : v0 ∈ c.cells.map serCell :=
          List.mem_map.2 ⟨Cell.date v0, hv0, rfl⟩
        have hcond : ¬(((c.cells.map serCell).map rawCell).all numCheckVal = true) := by
          intro hall
          have hv : rawCell v0 ∈ (c.cells.map serCell).map rawCell :=
            List.mem_map.2 ⟨v0, hv0raw, rfl⟩
          have h2 := List.all_eq_true.1 hall _ hv
          rw [rawCell_not_na hv0na] at h2
          replace h2 : (parseNumCell v0).isSome = true := h2
          rw [hfail0] at h2
          exact Bool.noConfusion h2
        rw [mkReadCol_neg hcond, escapeCol_lit_object, castCol_lit_date _ _ _ hd]
        have hchain : (((((c.cells.map serCell).map rawCell).map readStrVal).map
            escCell).map toDatetimeCell) = c.cells := by
          rw [List.map_map, List.map_map, List.map_map, List.map_map]
          apply map_eq_self_of
          intro x hx
          rcases hcells x hx with rfl | ⟨w, rfl, hdw⟩
          · rfl
          · show toDatetimeCell (escCell (readStrVal (rawCell (serCell
              (Cell.date w))))) = Cell.date w
            rw [show serCell (Cell.date w) = w from rfl,
              rawCell_not_na (dateShape_not_na hdw)]
            show toDatetimeCell (escCell (Cell.str w)) = Cell.date w
            have hdq : doubleQuotes w = w := by
              have h3 : (doubleQuotes w).data = w.data := dq_eq_self
                (dateShape_no_quote hdw)
              cases w
              exact congrArg String.mk h3
            rw [show escCell (Cell.str w) = Cell.str (doubleQuotes w) from rfl, hdq]
            show toDatetimeCell (Cell.str w) = Cell.date w
            rw [show toDatetimeCell (Cell.str w) =
              (match parseDate w with
                | some v => Cell.date v
                | none => Cell.null) from rfl, parseDate_of_dateShape hdw]
        rw [hchain]
        rfl
      · have hallnull : ∀ x ∈ c.cells, x = Cell.null := by
          intro x hx
          rcases hcells x hx with h1 | ⟨w, rfl, -⟩
          · exact h1
          · exact absurd ⟨w, hx⟩ hexd
        have hcond : (((c.cells.map serCell).map rawCell).all numCheckVal) = true := by
          rw [List.all_eq_true]
          intro v hv
          obtain ⟨s, hs, rfl⟩ := List.mem_map.1 hv
          obtain ⟨x, hx, rfl⟩ := List.mem_map.1 hs
          rw [hallnull x hx]
          rfl
        rw [mkReadCol_pos hcond]
        have hcells2 : (((c.cells.map serCell).map rawCell).map readNumVal)
            = c.cells := by
          rw [List.map_map, List.map_map]
          apply map_eq_self_of
          intro x hx
          rw [hallnull x hx]
          rfl
        rw [hcells2, escapeCol_lit_keep _ _ _ (fun h => DType.noConfusion h),
          castCol_lit_date _ _ _ hd]
        have h3 : c.cells.map toDatetimeCell = c.cells := by
          apply map_eq_self_of
          intro x hx
          rw [hallnull x hx]
          rfl
        rw [h3]
        rfl

theorem readCsv_ok_inv {text : String} {df0 : Df}
    (h : readCsv text = Except.ok df0) :
    ∃ hdr rows, lexCsv text = some (hdr :: rows)
      ∧ hdr ≠ []
      ∧ df0 = ⟨(List.range hdr.length).map (fun j =>
          mkReadCol (hdr.getD j "") (rows.map (fun r => r.getD j "")))⟩
      ∧ ∀ r ∈ rows, r.length = hdr.length := by
  cases hl : lexCsv text with
  | none =>
      rw [readCsv.eq_def, hl] at h
      exact Except.noConfusion h
  | some rs =>
      cases rs with
      | nil =>
          rw [readCsv.eq_def, hl] at h
          exact Except.noConfusion h
      | cons hdr rows =>
          rw [readCsv_step hl] at h
          by_cases hrect : rows.all (fun r => r.length = hdr.length) = true
          · rw [if_pos hrect] at h
            exact ⟨hdr, rows, rfl,
              lexRecords_ne_nil (show lexRecords (text.data.length + 1) text.data =
                some (hdr :: rows) from hl) hdr (List.mem_cons_self _ _),
              (Except.ok.inj h).symm,
              fun r hr => by simpa using List.all_eq_true.1 hrect r hr⟩
          · rw [if_neg hrect] at h
            exact Except.noConfusion h

theorem castStage_cols (d : Df) :
    (castStage (escapeStage d)).cols = d.cols.map (fun c => castCol (escapeCol c)) := by
  show (⟨(escapeStage d).cols.map castCol⟩ : Df).cols = _
  rw [show (escapeStage d).cols = d.cols.map escapeCol from rfl, List.map_map]
  rfl

/-! ## Claim theorems -/

/-- C1: for a column whose native type is opaque text (object dtype) and
whose name does not contain `date`, numeric coercion is all-or-nothing:
if every cell's text parses as a number the whole column becomes
numeric, and if any cell's text fails numeric parsing the column is
returned completely unchanged (same dtype, same cell values). -/
theorem claim_numeric_coercion_all_or_nothing (c : Column)
    (hd : hasDate c.name = false) (ho : c.dtype = DType.object) :
    ((∀ x ∈ c.cells, ∃ s, x = Cell.str s ∧ (parseNumCell s).isSome = true) →
        (castCol c).dtype = DType.numeric
          ∧ (castCol c).cells.length = c.cells.length)
    ∧ (∀ s, Cell.str s ∈ c.cells → parseNumCell s = none → castCol c = c) := by
  constructor
  · intro hall
    rw [castCol, if_neg (by simp [hd]), if_pos ho, if_pos ?hcond]
    case hcond =>
      rw [List.all_eq_true]
      intro x hx
      obtain ⟨s, rfl, hs⟩ := hall x hx
      exact hs
    exact ⟨rfl, by simp⟩
  · intro s hs hfail
    rw [castCol, if_neg (by simp [hd]), if_pos ho, if_neg ?hcond]
    case hcond =>
      intro hcontra
      have h2 : (parseNumCell s).isSome = true := List.all_eq_true.1 hcontra _ hs
      rw [hfail] at h2
      exact Bool.noConfusion h2

/-- C2: for any column whose (lowercased) name contains the substring
`date`, regardless of its dtype or content, the cast stage converts it
wholesale to a datetime column: each cell is sent through
`to_datetime`, a text cell that fails date parsing becomes null, no
row is dropped, and the numeric-coercion branch is never reached (the
result dtype is datetime even when every cell would parse as a
number). -/
theorem claim_date_name_precedence (c : Column) (h : hasDate c.name = true) :
    (castCol c).dtype = DType.datetime
    ∧ (castCol c).cells.length = c.cells.length
    ∧ (∀ i, i < c.cells.length →
        (castCol c).cells.getD i Cell.null = toDatetimeCell (c.cells.getD i Cell.null))
    ∧ (∀ s, parseDate s = none → toDatetimeCell (Cell.str s) = Cell.null) := by
  rw [castCol, if_pos h]
  refine ⟨rfl, by simp, ?_, ?_⟩
  · intro i hi
    exact getD_map_of_lt toDatetimeCell c.cells Cell.null Cell.null hi
  · intro s hs
    simp [toDatetimeCell, hs]

/-- C4: after the escaping stage, every cell of an object-dtype column
is a string; in particular a null cell of such a column has become the
literal three-character string `nan` (rendered by `astype(str)`),
which is not the null marker. -/
theorem claim_escape_objects_all_strings (c : Column) (h : c.dtype = DType.object) :
    (∀ x ∈ (escapeCol c).cells, ∃ s, x = Cell.str s)
    ∧ (∀ i, i < c.cells.length → c.cells.getD i Cell.null = Cell.null →
        (escapeCol c).cells.getD i Cell.null = Cell.str "nan")
    ∧ Cell.str "nan" ≠ Cell.null := by
  rw [escapeCol, if_pos h]
  refine ⟨?_, ?_, by simp⟩
  · intro x hx
    simp only [List.mem_map] at hx
    obtain ⟨y, -, rfl⟩ := hx
    exact ⟨_, rfl⟩
  · intro i hi hnull
    rw [show (⟨c.name, DType.object, c.cells.map escCell⟩ : Column).cells =
      c.cells.map escCell from rfl]
    rw [getD_map_of_lt _ c.cells Cell.null Cell.null hi, hnull]
    rfl

/-- C5: the escaping stage rewrites each cell of an opaque-text
column by doubling every quote character and changing nothing else
(characterized by the flat-map identity: a quote maps to two quotes,
any other character to itself); it never touches a column typed
numeric or datetime; and on the concrete example, `He said "hi"`
becomes `He said ""hi""`. -/
theorem claim_quote_doubling :
    (∀ c : Column, c.dtype ≠ DType.object → escapeCol c = c)
    ∧ (∀ c : Column, c.dtype = DType.object → ∀ i s, i < c.cells.length →
        c.cells.getD i Cell.null = Cell.str s →
        (escapeCol c).cells.getD i Cell.null = Cell.str (doubleQuotes s))
    ∧ (∀ s : String, (doubleQuotes s).data =
        s.data.flatMap (fun ch => if ch = '"' then ['"', '"'] else [ch]))
    ∧ doubleQuotes "He said \"hi\"" = "He said \"\"hi\"\"" := by
  refine ⟨?_, ?_, ?_, by rfl⟩
  · intro c hc
    rw [escapeCol, if_neg hc]
  · intro c hc i s hi hcell
    rw [escapeCol, if_pos hc]
    rw [show (⟨c.name, DType.object, c.cells.map escCell⟩ : Column).cells =
      c.cells.map escCell from rfl]
    rw [getD_map_of_lt _ c.cells Cell.null Cell.null hi, hcell]
    rfl
  · intro s
    exact dq_flatMap s.data

/-- C9: any filename whose suffix is not exactly the case-sensitive
literal `.csv` or `.xlsx` is rejected up front: the pipeline returns
the uniform failure result (no table, no handle, no columns) carrying
the unsupported-format diagnostic, and by the shape of
`preprocess_and_save` no reader ever runs on the byte stream. -/
theorem claim_unsupported_suffix_rejected (f : RawFile)
    (h1 : endsWithStr f.name ".csv" = false)
    (h2 : endsWithStr f.name ".xlsx" = false) :
    preprocess_and_save f =
      PResult.fail "Unsupported file format. Please upload a CSV or Excel file." := by
  rw [preprocess_and_save, if_neg (by simp [h1]), if_neg (by simp [h2])]

/-- Witness for C1, on the spec's own examples: the all-text column
`3, 4, 5` becomes numeric and the column `1, x` is left unchanged. -/
theorem claim_numeric_coercion_all_or_nothing_witness :
    ((castCol ⟨"v", DType.object, [Cell.str "3", Cell.str "4", Cell.str "5"]⟩).dtype
        = DType.numeric
      ∧ (castCol ⟨"v", DType.object,
          [Cell.str "3", Cell.str "4", Cell.str "5"]⟩).cells.length
        = ([Cell.str "3", Cell.str "4", Cell.str "5"] : List Cell).length)
    ∧ castCol ⟨"v", DType.object, [Cell.str "1", Cell.str "x"]⟩
        = ⟨"v", DType.object, [Cell.str "1", Cell.str "x"]⟩ := by
  constructor
  · refine (claim_numeric_coercion_all_or_nothing _ (by decide) rfl).1 ?_
    intro x hx
    simp only [List.mem_cons, List.not_mem_nil, or_false] at hx
    rcases hx with rfl | rfl | rfl
    · exact ⟨"3", rfl, by decide⟩
    · exact ⟨"4", rfl, by decide⟩
    · exact ⟨"5", rfl, by decide⟩
  · exact (claim_numeric_coercion_all_or_nothing _ (by decide) rfl).2 "x"
      (by simp) (by decide)

/-- Witness for C2, on the spec's own example: `order_date` with one
valid date and one junk value becomes a datetime column whose second
cell is null. -/
theorem claim_date_name_precedence_witness :
    (castCol ⟨"order_date", DType.object,
        [Cell.str "2020-01-01", Cell.str "not-a-date"]⟩).dtype = DType.datetime
    ∧ (castCol ⟨"order_date", DType.object,
        [Cell.str "2020-01-01", Cell.str "not-a-date"]⟩).cells.getD 0 Cell.null
      = toDatetimeCell (Cell.str "2020-01-01")
    ∧ toDatetimeCell (Cell.str "not-a-date") = Cell.null := by
  refine ⟨(claim_date_name_precedence _ (by decide)).1,
    (claim_date_name_precedence _ (by decide)).2.2.1 0 (by decide),
    (claim_date_name_precedence ⟨"order_date", DType.object,
        [Cell.str "2020-01-01", Cell.str "not-a-date"]⟩ (by decide)).2.2.2
      "not-a-date" (by decide)⟩

/-- Witness for C4: in an object column holding a null and a string,
the escaped column's first cell is the literal string `nan`. -/
theorem claim_escape_objects_all_strings_witness :
    (escapeCol ⟨"name", DType.object, [Cell.null, Cell.str "x"]⟩).cells.getD 0 Cell.null
      = Cell.str "nan"
    ∧ Cell.str "nan" ≠ Cell.null := by
  exact ⟨(claim_escape_objects_all_strings _ rfl).2.1 0 (by decide) rfl,
    (claim_escape_objects_all_strings ⟨"name", DType.object,
      [Cell.null, Cell.str "x"]⟩ rfl).2.2⟩

/-- Witness for C5: a numeric column passes through the escaper
untouched, and the spec's example text is quote-doubled. -/
theorem claim_quote_doubling_witness :
    escapeCol ⟨"v", DType.numeric, [Cell.num "1"]⟩
        = ⟨"v", DType.numeric, [Cell.num "1"]⟩
    ∧ (escapeCol ⟨"t", DType.object, [Cell.str "He said \"hi\""]⟩).cells.getD 0 Cell.null
        = Cell.str "He said \"\"hi\"\"" := by
  constructor
  · exact claim_quote_doubling.1 _ (by decide)
  · rw [claim_quote_doubling.2.1 ⟨"t", DType.object, [Cell.str "He said \"hi\""]⟩
      rfl 0 "He said \"hi\"" (by decide) rfl, claim_quote_doubling.2.2.2]

/-- Witness for C9: both the case-variant suffix `.CSV` and a `.txt`
suffix are rejected with the unsupported-format failure. -/
theorem claim_unsupported_suffix_rejected_witness :
    preprocess_and_save ⟨"data.CSV", FileContent.csv "a\n1"⟩ =
      PResult.fail "Unsupported file format. Please upload a CSV or Excel file."
    ∧ preprocess_and_save ⟨"data.txt", FileContent.csv "a\n1"⟩ =
      PResult.fail "Unsupported file format. Please upload a CSV or Excel file." :=
  ⟨claim_unsupported_suffix_rejected _ (by decide) (by decide),
   claim_unsupported_suffix_rejected _ (by decide) (by decide)⟩

/-- C3 counterexample: the claim demands that a `NA` cell be null in
the returned table regardless of the column's final type, but in a
column left as opaque text the parse-time null is replaced by the
literal string `nan` during escaping: on `name; NA; x` the returned
table's first cell is the non-null string `nan`. -/
theorem claim_missing_token_counterexample :
    preprocess_and_save ⟨"t.csv", FileContent.csv "name\nNA\nx"⟩ =
      PResult.ok "\"name\"\n\"nan\"\n\"x\"\n" ["name"]
        ⟨[⟨"name", DType.object, [Cell.str "nan", Cell.str "x"]⟩]⟩
    ∧ Cell.str "nan" ≠ Cell.null := by
  exact ⟨by decide, by decide⟩

/-- C3 (amended): any cell whose literal text exactly equals `NA`,
`N/A` or `missing` is converted to the null marker while parsing,
before escaping and type inference, identically for both source
formats; a parse-time null cell is still null in the returned table
when the column's final type is numeric or datetime — both for a
column that is non-object straight from the reader, and for an
opaque-text column that the cast stage converts — but in a column
left as opaque text the escaping stage replaces the null by the
literal, non-null string `nan`. -/
theorem claim_missing_tokens_null_at_parse :
    (∀ s, s = "NA" ∨ s = "N/A" ∨ s = "missing" →
        rawCell s = none ∧ xRawCell (XCell.xstr s) = none)
    ∧ (∀ c : Column, c.dtype ≠ DType.object → ∀ i, i < c.cells.length →
        c.cells.getD i Cell.null = Cell.null →
        (castCol (escapeCol c)).cells.getD i Cell.null = Cell.null)
    ∧ (∀ c : Column, c.dtype = DType.object → ∀ i, i < c.cells.length →
        c.cells.getD i Cell.null = Cell.null →
        ((castCol (escapeCol c)).dtype = DType.numeric →
            (castCol (escapeCol c)).cells.getD i Cell.null = Cell.null)
        ∧ ((castCol (escapeCol c)).dtype = DType.datetime →
            (castCol (escapeCol c)).cells.getD i Cell.null = Cell.null)
        ∧ ((castCol (escapeCol c)).dtype = DType.object →
            (castCol (escapeCol c)).cells.getD i Cell.null = Cell.str "nan"
              ∧ Cell.str "nan" ≠ Cell.null)) := by
  refine ⟨?_, ?_, ?_⟩
  · intro s h
    have hna : isNa s = true := by rcases h with rfl | rfl | rfl <;> decide
    exact ⟨by simp [rawCell, hna], by simp [xRawCell, hna]⟩
  · intro c hobj i hi hnull
    rw [escapeCol_nonobject hobj]
    by_cases hd : hasDate c.name = true
    · rw [castCol_date hd]
      rw [show (⟨c.name, DType.datetime, c.cells.map toDatetimeCell⟩ : Column).cells
        = c.cells.map toDatetimeCell from rfl]
      rw [getD_map_of_lt toDatetimeCell c.cells Cell.null Cell.null hi, hnull]
      rfl
    · have hd2 : hasDate c.name = false := by
        cases hb : hasDate c.name with
        | true => exact absurd hb hd
        | false => rfl
      rw [castCol_keep hd2 hobj, hnull]
  · intro c hobj i hi hnull
    rw [escapeCol_object hobj]
    have hi2 : i < (c.cells.map escCell).length := by simpa using hi
    by_cases hd : hasDate c.name = true
    · rw [castCol_lit_date _ _ _ hd]
      refine ⟨fun h => DType.noConfusion h, fun _ => ?_, fun h => DType.noConfusion h⟩
      rw [show (⟨c.name, DType.datetime,
          (c.cells.map escCell).map toDatetimeCell⟩ : Column).cells
        = (c.cells.map escCell).map toDatetimeCell from rfl]
      rw [getD_map_of_lt toDatetimeCell (c.cells.map escCell) Cell.null Cell.null hi2,
        getD_map_of_lt escCell c.cells Cell.null Cell.null hi, hnull]
      decide
    · have hd2 : hasDate c.name = false := by
        cases hb : hasDate c.name with
        | true => exact absurd hb hd
        | false => rfl
      by_cases hall : (c.cells.map escCell).all numCheckCell = true
      · rw [castCol_lit_obj_num _ _ hd2 hall]
        refine ⟨fun _ => ?_, fun h => DType.noConfusion h, fun h => DType.noConfusion h⟩
        rw [show (⟨c.name, DType.numeric,
            (c.cells.map escCell).map toNumericCell⟩ : Column).cells
          = (c.cells.map escCell).map toNumericCell from rfl]
        rw [getD_map_of_lt toNumericCell (c.cells.map escCell) Cell.null Cell.null hi2,
          getD_map_of_lt escCell c.cells Cell.null Cell.null hi, hnull]
        decide
      · rw [castCol_lit_obj_keep _ _ hd2 hall]
        refine ⟨fun h => DType.noConfusion h, fun h => DType.noConfusion h,
          fun _ => ⟨?_, by simp⟩⟩
        rw [show (⟨c.name, DType.object, c.cells.map escCell⟩ : Column).cells
          = c.cells.map escCell from rfl]
        rw [getD_map_of_lt escCell c.cells Cell.null Cell.null hi, hnull]
        decide

/-- Witness for C3 (amended): the token `NA` is nulled at parse time
for both formats; a parse-time null stays null in a natively numeric
column, in an all-numeric text column converted by the cast, and in a
date-named column; and in a column left as text it returns as the
non-null string `nan`. -/
theorem claim_missing_tokens_null_at_parse_witness :
    (rawCell "NA" = none ∧ xRawCell (XCell.xstr "NA") = none)
    ∧ (castCol (escapeCol ⟨"v", DType.numeric, [Cell.null]⟩)).cells.getD 0 Cell.null
        = Cell.null
    ∧ (castCol (escapeCol ⟨"v", DType.object,
        [Cell.null, Cell.str "1"]⟩)).cells.getD 0 Cell.null = Cell.null
    ∧ (castCol (escapeCol ⟨"d_date", DType.object, [Cell.null]⟩)).cells.getD 0 Cell.null
        = Cell.null
    ∧ (castCol (escapeCol ⟨"name", DType.object,
        [Cell.null, Cell.str "x"]⟩)).cells.getD 0 Cell.null = Cell.str "nan"
    ∧ Cell.str "nan" ≠ Cell.null :=
  ⟨claim_missing_tokens_null_at_parse.1 "NA" (Or.inl rfl),
   claim_missing_tokens_null_at_parse.2.1 ⟨"v", DType.numeric, [Cell.null]⟩
     (by decide) 0 (by decide) rfl,
   (claim_missing_tokens_null_at_parse.2.2 ⟨"v", DType.object,
     [Cell.null, Cell.str "1"]⟩ rfl 0 (by decide) rfl).1 (by decide),
   (claim_missing_tokens_null_at_parse.2.2 ⟨"d_date", DType.object,
     [Cell.null]⟩ rfl 0 (by decide) rfl).2.1 (by decide),
   ((claim_missing_tokens_null_at_parse.2.2 ⟨"name", DType.object,
     [Cell.null, Cell.str "x"]⟩ rfl 0 (by decide) rfl).2.2 (by decide)).1,
   ((claim_missing_tokens_null_at_parse.2.2 ⟨"name", DType.object,
     [Cell.null, Cell.str "x"]⟩ rfl 0 (by decide) rfl).2.2 (by decide)).2⟩

/-- C8 counterexample: the claim says an empty-text cell is kept as a
valid non-null value, but the empty string is one of pandas' default
missing tokens, so parsing `a,b` over the row `,x` nulls the first
cell. -/
theorem claim_empty_string_counterexample :
    rawCell "" = none
    ∧ readCsv "a,b\n,x" = Except.ok ⟨[⟨"a", DType.numeric, [Cell.null]⟩,
        ⟨"b", DType.object, [Cell.str "x"]⟩]⟩ := by
  exact ⟨by decide, by rfl⟩

/-- C8 (amended): an empty-text cell is converted to the null marker
during parsing — the empty string belongs to the default missing-token
set, so it is not distinguishable from a null; only literals outside
the missing-token set are kept, unchanged, as non-null text. -/
theorem claim_empty_string_is_null :
    isNa "" = true ∧ rawCell "" = none
    ∧ (∀ s : String, isNa s = false → rawCell s = some s) := by
  refine ⟨by decide, by decide, ?_⟩
  intro s hs
  simp [rawCell, hs]

/-- Witness for C8 (amended): the non-token literal `x` is kept. -/
theorem claim_empty_string_is_null_witness : rawCell "x" = some "x" :=
  claim_empty_string_is_null.2.2 "x" (by decide)

/-- C7 counterexample: the claim that the snapshot's line count always
equals the row count plus one fails when a text cell contains an
embedded newline: the single-row table parsed from `a` over the quoted
field `x↵y` serializes to a snapshot with three newline-terminated
physical lines, not two. -/
theorem claim_snapshot_line_count_counterexample :
    preprocess_and_save ⟨"t.csv", FileContent.csv "a\n\"x\ny\""⟩ =
      PResult.ok "\"a\"\n\"x\ny\"\n" ["a"]
        ⟨[⟨"a", DType.object, [Cell.str "x\ny"]⟩]⟩
    ∧ ("\"a\"\n\"x\ny\"\n" : String).data.count '\n' = 3
    ∧ (⟨[⟨"a", DType.object, [Cell.str "x\ny"]⟩]⟩ : Df).nrows + 1 = 2 := by
  exact ⟨by decide, by decide, by decide⟩

/-- C7 (amended): whenever the pipeline reports success, the snapshot
is exactly the serialization of the returned table, in which every
field of every record — header and data — is enclosed in quote
characters with embedded quotes doubled, each record is terminated by
a newline, and, provided no column name and no serialized cell value
contains a newline character, the snapshot's newline count (its line
count) equals the table's row count plus one; a cell value holding an
embedded newline stays inside its quoted field and adds physical
lines. -/
theorem claim_snapshot_line_count (f : RawFile) (snap : String)
    (cols : List String) (df : Df)
    (hok : preprocess_and_save f = PResult.ok snap cols df)
    (hnm : ∀ c ∈ df.cols, c.name.data.count '\n' = 0)
    (hcell : ∀ c ∈ df.cols, ∀ x ∈ c.cells, (serCell x).data.count '\n' = 0) :
    snap = serializeDf df ∧ snap.data.count '\n' = df.nrows + 1 := by
  obtain ⟨hsnap, -, -⟩ := preprocess_ok_inv hok
  exact ⟨hsnap, hsnap ▸ serializeDf_count_nl hnm hcell⟩

/-- Witness for C7 (amended), on a concrete two-row table: the
snapshot has exactly three lines. -/
theorem claim_snapshot_line_count_witness :
    "\"a\",\"b\"\n\"1\",\"2\"\n\"3\",\"4\"\n" =
      serializeDf ⟨[⟨"a", DType.numeric, [Cell.num "1", Cell.num "3"]⟩,
        ⟨"b", DType.numeric, [Cell.num "2", Cell.num "4"]⟩]⟩
    ∧ ("\"a\",\"b\"\n\"1\",\"2\"\n\"3\",\"4\"\n" : String).data.count '\n' =
      (⟨[⟨"a", DType.numeric, [Cell.num "1", Cell.num "3"]⟩,
        ⟨"b", DType.numeric, [Cell.num "2", Cell.num "4"]⟩]⟩ : Df).nrows + 1 :=
  claim_snapshot_line_count ⟨"t.csv", FileContent.csv "a,b\n1,2\n3,4"⟩ _ ["a", "b"] _
    (by decide) (by decide) (by decide)

/-- C10 counterexample: the claim fails for a spreadsheet input with a
natively-typed date column whose name lacks `date`: the first run
returns a datetime column `2020-01-01, NaT` with one non-null cell,
but re-reading its snapshot as csv leaves the column as text, where
the escaping stage resurrects the null as the string `nan` — the
re-parsed table has two non-null cells. -/
theorem claim_roundtrip_counterexample :
    preprocess_and_save ⟨"t.xlsx", FileContent.xlsx ⟨["when"],
        [[XCell.xdate "2020-01-01"], [XCell.blank]]⟩⟩ =
      PResult.ok "\"when\"\n\"2020-01-01\"\n\"\"\n" ["when"]
        ⟨[⟨"when", DType.datetime, [Cell.date "2020-01-01", Cell.null]⟩]⟩
    ∧ (⟨[⟨"when", DType.datetime, [Cell.date "2020-01-01", Cell.null]⟩]⟩ : Df).nonNull
        = 1
    ∧ preprocess_and_save ⟨"t.csv", FileContent.csv "\"when\"\n\"2020-01-01\"\n\"\"\n"⟩ =
      PResult.ok "\"when\"\n\"2020-01-01\"\n\"nan\"\n" ["when"]
        ⟨[⟨"when", DType.object, [Cell.str "2020-01-01", Cell.str "nan"]⟩]⟩
    ∧ (⟨[⟨"when", DType.object,
        [Cell.str "2020-01-01", Cell.str "nan"]⟩]⟩ : Df).nonNull = 2 := by
  exact ⟨by decide, by decide, by decide, by decide⟩

/-- C10 (amended): for every successful run on a delimited-text
(.csv) input, feeding the produced Durable Snapshot back through the
pipeline as a .csv input succeeds and yields a Typed Table with the
same column count and the same number of non-null cells as the
original Typed Table.  (For spreadsheet inputs this can fail: a
natively-typed date column whose name lacks `date` and that contains
a blank re-parses as text, where the null becomes the non-null string
`nan`.) -/
theorem claim_roundtrip_csv (nm nm2 text snap : String) (cols : List String)
    (df : Df) (h1 : endsWithStr nm2 ".csv" = true)
    (hok : preprocess_and_save ⟨nm, FileContent.csv text⟩ = PResult.ok snap cols df) :
    ∃ snap2 cols2 df2,
      preprocess_and_save ⟨nm2, FileContent.csv snap⟩ = PResult.ok snap2 cols2 df2
        ∧ cols2.length = cols.length ∧ df2.nonNull = df.nonNull := by
  obtain ⟨hsnap, hcols, df0, hdf, hsrc⟩ := preprocess_ok_inv hok
  rcases hsrc with ⟨text2, hct, -, hread⟩ | ⟨x, hct, -⟩
  swap
  · exact FileContent.noConfusion hct
  obtain rfl : text = text2 := FileContent.csv.inj hct
  obtain ⟨hdr, rows, hlex, hhdr, hdf0, hrect0⟩ := readCsv_ok_inv hread
  have hdfcols : df.cols = df0.cols.map (fun c => castCol (escapeCol c)) := by
    rw [hdf, castStage_cols]
  have hFin : ∀ c ∈ df.cols, FinColP c := by
    intro c hc
    rw [hdfcols] at hc
    obtain ⟨c0, hc0, rfl⟩ := List.mem_map.1 hc
    rw [hdf0] at hc0
    obtain ⟨j, -, rfl⟩ := List.mem_map.1 hc0
    exact finCol_read _ _
  have hlen0 : ∀ c ∈ df.cols, c.cells.length = rows.length := by
    intro c hc
    rw [hdfcols] at hc
    obtain ⟨c0, hc0, rfl⟩ := List.mem_map.1 hc
    rw [hdf0] at hc0
    obtain ⟨j, -, rfl⟩ := List.mem_map.1 hc0
    rw [castCol_length, escapeCol_length, mkReadCol_length]
    simp
  have hcolsne : df.cols ≠ [] := by
    rw [hdfcols, hdf0]
    have : hdr.length ≠ 0 := by
      cases hdr with
      | nil => exact absurd rfl hhdr
      | cons a t => simp
    simp [this]
  have hnrows : df.nrows = rows.length := by
    cases hcc : df.cols with
    | nil => exact absurd hcc hcolsne
    | cons c t =>
        rw [show df.nrows = c.cells.length from by rw [Df.nrows, hcc]]
        exact hlen0 c (hcc ▸ List.mem_cons_self _ _)
  have hrect2 : ∀ c ∈ df.cols, c.cells.length = df.nrows := by
    rw [hnrows]
    exact hlen0
  have hre := readCsv_serializeDf df hcolsne hrect2
  refine ⟨serializeDf (castStage (escapeStage
      ⟨df.cols.map (fun c => mkReadCol c.name (c.cells.map serCell))⟩)),
    (castStage (escapeStage
      ⟨df.cols.map (fun c => mkReadCol c.name (c.cells.map serCell))⟩)).cols.map
        Column.name,
    castStage (escapeStage
      ⟨df.cols.map (fun c => mkReadCol c.name (c.cells.map serCell))⟩),
    ?_, ?_, ?_⟩
  · rw [hsnap]
    simp only [preprocess_and_save, h1, hre, finishPipeline, if_true]
  · have h2 := castStage_cols
      (⟨df.cols.map (fun c => mkReadCol c.name (c.cells.map serCell))⟩ : Df)
    rw [List.length_map, h2, List.length_map]
    rw [show (⟨df.cols.map (fun c => mkReadCol c.name (c.cells.map serCell))⟩ : Df).cols
      = df.cols.map (fun c => mkReadCol c.name (c.cells.map serCell)) from rfl]
    rw [List.length_map, hcols, List.length_map]
  · rw [Df.nonNull, castStage_cols
      (⟨df.cols.map (fun c => mkReadCol c.name (c.cells.map serCell))⟩ : Df)]
    rw [show (⟨df.cols.map (fun c => mkReadCol c.name (c.cells.map serCell))⟩ : Df).cols
      = df.cols.map (fun c => mkReadCol c.name (c.cells.map serCell)) from rfl]
    rw [List.map_map, List.map_map, Df.nonNull]
    congr 1
    apply List.map_congr_left
    intro c hc
    exact roundtrip_col c (hFin c hc)

/-- Witness for C10 (amended): a concrete run on `a; x` whose
snapshot re-parses to a table with the same column count and
non-null count. -/
theorem claim_roundtrip_csv_witness :
    ∃ snap2 cols2 df2,
      preprocess_and_save ⟨"u.csv", FileContent.csv "\"a\"\n\"x\"\n"⟩ =
        PResult.ok snap2 cols2 df2
      ∧ cols2.length = (["a"] : List String).length
      ∧ df2.nonNull =
          (⟨[⟨"a", DType.object, [Cell.str "x"]⟩]⟩ : Df).nonNull :=
  claim_roundtrip_csv "t.csv" "u.csv" "a\nx" "\"a\"\n\"x\"\n" ["a"]
    ⟨[⟨"a", DType.object, [Cell.str "x"]⟩]⟩ (by decide) (by decide)

/-- C6: the pipeline's result is always either the uniform failure
(no table, no handle, no column list, with a diagnostic message) or
the complete success triple, whose column list is exactly the table's
column names and whose snapshot is exactly the serialized table — no
partial result exists; moreover a read-stage error is caught and
converted into the uniform failure carrying the
`Error processing file:` diagnostic. -/
theorem claim_uniform_failure (f : RawFile) :
    ((∃ msg, preprocess_and_save f = PResult.fail msg)
      ∨ (∃ snap cols df, preprocess_and_save f = PResult.ok snap cols df
          ∧ cols = df.cols.map Column.name ∧ snap = serializeDf df))
    ∧ (∀ nm text e, endsWithStr nm ".csv" = true →
        readCsv text = Except.error e →
        preprocess_and_save ⟨nm, FileContent.csv text⟩ =
          PResult.fail ("Error processing file: " ++ e)) := by
  constructor
  · obtain ⟨n, cnt⟩ := f
    by_cases h1 : endsWithStr n ".csv" = true
    · cases cnt with
      | csv text =>
          cases hr : readCsv text with
          | error e =>
              exact Or.inl ⟨"Error processing file: " ++ e,
                by simp [preprocess_and_save, h1, hr]⟩
          | ok df =>
              exact Or.inr ⟨serializeDf (castStage (escapeStage df)),
                (castStage (escapeStage df)).cols.map Column.name,
                castStage (escapeStage df),
                by simp [preprocess_and_save, h1, hr, finishPipeline], rfl, rfl⟩
      | xlsx x =>
          exact Or.inl ⟨"Error processing file: not valid delimited text",
            by simp [preprocess_and_save, h1]⟩
    · by_cases h2 : endsWithStr n ".xlsx" = true
      · cases cnt with
        | csv text =>
            exact Or.inl ⟨"Error processing file: not a valid spreadsheet",
              by simp [preprocess_and_save, h1, h2]⟩
        | xlsx x =>
            cases hr : readXlsx x with
            | error e =>
                exact Or.inl ⟨"Error processing file: " ++ e,
                  by simp [preprocess_and_save, h1, h2, hr]⟩
            | ok df =>
                exact Or.inr ⟨serializeDf (castStage (escapeStage df)),
                  (castStage (escapeStage df)).cols.map Column.name,
                  castStage (escapeStage df),
                  by simp [preprocess_and_save, h1, h2, hr, finishPipeline], rfl, rfl⟩
      · exact Or.inl ⟨"Unsupported file format. Please upload a CSV or Excel file.",
          by simp [preprocess_and_save, h1, h2]⟩
  · intro nm text e h he
    simp [preprocess_and_save, h, he]

/-- Witness for C6: the all-or-nothing result shape at a concrete
file, plus the uniform failure on a concrete read error (an empty
file). -/
theorem claim_uniform_failure_witness :
    ((∃ msg, preprocess_and_save ⟨"t.csv", FileContent.csv "a\n1"⟩ = PResult.fail msg)
      ∨ (∃ snap cols df,
          preprocess_and_save ⟨"t.csv", FileContent.csv "a\n1"⟩ = PResult.ok snap cols df
          ∧ cols = df.cols.map Column.name ∧ snap = serializeDf df))
    ∧ preprocess_and_save ⟨"t.csv", FileContent.csv ""⟩ =
        PResult.fail "Error processing file: No columns to parse from file" :=
  ⟨(claim_uniform_failure ⟨"t.csv", FileContent.csv "a\n1"⟩).1,
   (claim_uniform_failure ⟨"t.csv", FileContent.csv "a\n1"⟩).2 "t.csv" "" _
     (by decide) (by rfl)⟩

end SqlAgent
